import Mathlib

/-!
# sunxi-sysinfo: identity attributes and the `nc_serial` fingerprint

A verification development for `drivers/char/sunxi-sysinfo/sunxi-sysinfo.c`.

Bytes are natural numbers below 256 and a buffer is a list of bytes.  A C string
argument (`model`, `quirks->platform_name`) is given by its content, the bytes
before the terminating NUL.  Every store into a local or heap buffer is bounds
checked, every read of a C string out of a buffer looks for the terminating NUL,
and a violation is reported as a `Fault` instead of a result.

The `int databuf[4]` array filled through `(u8 *)databuf` is read back with the
byte order of the sunxi ARM cores the driver is built for (little endian).
-/

namespace SunxiSysinfo

/-! ## C memory -/

/-- Ways in which the C code can leave defined behaviour. -/
inductive Fault where
  | overflow
  | unterminated
  | out_of_bounds
  | null_deref
  | uninit_read
  | uninit_free
  deriving DecidableEq, Repr

deriving instance DecidableEq for Except

/-- Bytes of an ASCII string literal of the source. -/
def ascii (s : String) : List Nat := s.toList.map Char.toNat

/-- Store of the bytes `bs` at `b + off`; a store running past the end of `b` is a fault. -/
def store (b : List Nat) (off : Nat) (bs : List Nat) : Except Fault (List Nat) :=
  if off + bs.length ≤ b.length then
    .ok (b.take off ++ bs ++ b.drop (off + bs.length))
  else
    .error .overflow

/-- The C string at `b + off`: the bytes before the first NUL; a fault when `b` has no NUL
from `off` on. -/
def cstr (b : List Nat) (off : Nat) : Except Fault (List Nat) :=
  let s := (b.drop off).takeWhile (fun x => x ≠ 0)
  if off + s.length < b.length then .ok s else .error .unterminated

/-- Read of the `u8` at index `i`. -/
def load_u8 (b : List Nat) (i : Nat) : Except Fault Nat :=
  match b[i]? with
  | some x => .ok (x % 256)
  | none => .error .out_of_bounds

/-- Read of `databuf[i]` of an `int databuf[4]` whose storage holds the bytes `b`:
a little-endian 32-bit word, taken as a signed `int`. -/
def load_int (b : List Nat) (i : Nat) : Int :=
  let u : Nat := b.getD (4 * i) 0 % 256 + 256 * (b.getD (4 * i + 1) 0 % 256)
    + 65536 * (b.getD (4 * i + 2) 0 % 256) + 16777216 * (b.getD (4 * i + 3) 0 % 256)
  if u < 2 ^ 31 then (u : Int) else (u : Int) - 2 ^ 32

/-- The function `strcpy(dst, src)`. -/
def strcpy (dst : List Nat) (src : List Nat) : Except Fault (List Nat) :=
  store dst 0 (src ++ [0])

/-- The function `strcat(dst, src)`. -/
def strcat (dst : List Nat) (src : List Nat) : Except Fault (List Nat) := do
  let old ← cstr dst 0
  store dst old.length (src ++ [0])

/-- A `for (i = 0; i < n; i++)` loop over a state that may fault. -/
def for_loop {σ : Type} (n : Nat) (body : Nat → σ → Except Fault σ) (s : σ) : Except Fault σ :=
  (List.range n).foldlM (fun st i => body i st) s

/-! ## `vsnprintf` conversions used by the driver -/

/-- The digit table `"0123456789abcdef"` of `number()`, as ASCII codes. -/
def hex_asc (d : Nat) : Nat := if d < 10 then 48 + d else 87 + d

/-- Digits of `v` in base 16, least significant first, at least one digit, as `number()`
collects them; `fuel` bounds the number of digits (8 for an `unsigned int`). -/
def hex_digits_rev : Nat → Nat → List Nat
  | 0, _ => []
  | fuel + 1, v => hex_asc (v % 16) :: (if v < 16 then [] else hex_digits_rev fuel (v / 16))

/-- Conversion `%0<width>x` of an `unsigned int` argument: the hex digits, most significant
first, padded on the left with `'0'` up to the field width, never cut. -/
def fmt_x (width : Nat) (v : Nat) : List Nat :=
  let ds := hex_digits_rev 8 (v % 2 ^ 32)
  (ds ++ List.replicate (width - ds.length) 48).reverse

/-- Conversion of an `int` argument to the `unsigned int` that `%x` reads. -/
def to_unsigned (v : Int) : Nat := (v % 2 ^ 32).toNat

/-- The call `sprintf(b + off, ...)` once the format has been expanded to `text`: stores
the text and a NUL, returns the number of characters written. -/
def sprintf (b : List Nat) (off : Nat) (text : List Nat) : Except Fault (List Nat × Nat) := do
  let b' ← store b off (text ++ [0])
  pure (b', text.length)

/-- The loop `for (i = 0; i < 4; i++) sprintf(tmpbuf + i*8, "%08x", databuf[i]);`
followed by `tmpbuf[128] = 0;`. -/
def hex_loop (databuf : List Nat) (tmpbuf : List Nat) : Except Fault (List Nat) := do
  let t ← for_loop 4 (fun i t => do
    let r ← sprintf t (i * 8) (fmt_x 8 (to_unsigned (load_int databuf i)))
    pure r.1) tmpbuf
  store t 128 [0]

/-! ## Profiles and environment of the attribute readers -/

/-- The profile type `struct sunxi_info_quirks`. -/
structure sunxi_info_quirks where
  platform_name : List Nat
  deriving DecidableEq, Repr

/-- The profile `sun8i_t113s_info_quirks`. -/
def sun8i_t113s_info_quirks : sunxi_info_quirks := { platform_name := ascii "sun8i-t113s" }

/-- The profile `sun5i_h6_info_quirks`. -/
def sun5i_h6_info_quirks : sunxi_info_quirks := { platform_name := ascii "sun50i-h6" }

/-- The profile `sun5i_h616_info_quirks`. -/
def sun5i_h616_info_quirks : sunxi_info_quirks := { platform_name := ascii "sun50i-h616" }

/-- The table `sunxi_info_match[]`: compatible string and profile of each entry. -/
def sunxi_info_match : List (String × sunxi_info_quirks) :=
  [ ("allwinner,sun8i-t113s-sys-info", sun8i_t113s_info_quirks),
    ("allwinner,sun50i-h6-sys-info", sun5i_h6_info_quirks),
    ("allwinner,sun50i-h616-sys-info", sun5i_h616_info_quirks) ]

/-- The resources `nc_serial_show` takes from the heap and the crypto layer. -/
inductive Res where
  | unhashedbuf
  | tfm
  | desc
  | sha256buf
  | outbuf
  deriving DecidableEq, Repr

/-- What the readers get from outside this file. -/
structure Env where
  /-- The global `quirks`; `none` while it is NULL. -/
  quirks : Option sunxi_info_quirks
  /-- The string `of_property_read_string(np, "model", &model)` stores in `model`;
  `none` when the lookup fails and `model` stays unset. -/
  model : Option (List Nat)
  /-- The accessor `sunxi_get_soc_chipid(u8 *)`: from the 16 bytes of the buffer before the
  call to the returned status and the 16 bytes after it. -/
  sunxi_get_soc_chipid : List Nat → Int × List Nat
  /-- The accessor `sunxi_get_serial(u8 *)`, same shape. -/
  sunxi_get_serial : List Nat → Int × List Nat
  /-- Result of `crypto_alloc_shash("sha256", 0, 0)`: `none` for a usable transform,
  `some e` for `ERR_PTR(e)`. -/
  crypto_alloc_shash : Option Int
  /-- Whether the `kmalloc` for the given resource returns NULL. -/
  kmalloc_fails : Res → Bool
  /-- The bytes found in freshly allocated memory. -/
  heap_garbage : Res → Nat → Nat
  /-- The call `crypto_shash_digest(desc, data, len, out)`: from the `len` bytes of `data`
  to the returned code and the bytes stored at `out`. -/
  crypto_shash_digest : List Nat → Int × List Nat

/-- Memory returned by a successful `kmalloc(size)`: `size` bytes of arbitrary content. -/
def fresh (g : Nat → Nat) (size : Nat) : List Nat := (List.range size).map g

/-- Dereference of the global `quirks` pointer. -/
def deref_quirks (env : Env) : Except Fault sunxi_info_quirks :=
  match env.quirks with
  | some q => .ok q
  | none => .error .null_deref

/-- Result of an attribute reader: the returned `ssize_t` and the caller's buffer. -/
structure Shown where
  ret : Int
  buf : List Nat
  deriving DecidableEq, Repr

/-! ## The three plain readers -/

/-- The reader `sys_info_show`. -/
def sys_info_show (env : Env) (buf : List Nat) : Except Fault Shown := do
  let databuf := List.replicate 16 0
  let tmpbuf := List.replicate 129 0
  let size := 0
  -- platform
  let q ← deref_quirks env
  let r ← sprintf buf size (ascii "sunxi_platform    : " ++ q.platform_name ++ ascii "\n")
  let buf := r.1
  let size := size + r.2
  -- chipid
  let databuf := (env.sunxi_get_soc_chipid databuf).2
  let tmpbuf ← hex_loop databuf tmpbuf
  let s ← cstr tmpbuf 0
  let r ← sprintf buf size (ascii "sunxi_chipid      : " ++ s ++ ascii "\n")
  let buf := r.1
  let size := size + r.2
  -- serial
  let databuf := (env.sunxi_get_serial databuf).2
  let tmpbuf ← hex_loop databuf tmpbuf
  let s ← cstr tmpbuf 0
  let r ← sprintf buf size (ascii "sunxi_serial      : " ++ s ++ ascii "\n")
  let buf := r.1
  let size := size + r.2
  pure { ret := size, buf := buf }

/-- The reader `sunxi_chipid_show`. -/
def sunxi_chipid_show (env : Env) (buf : List Nat) : Except Fault Shown := do
  let databuf := List.replicate 16 0
  let tmpbuf := List.replicate 129 0
  let size := 0
  let databuf := (env.sunxi_get_soc_chipid databuf).2
  let tmpbuf ← hex_loop databuf tmpbuf
  let s ← cstr tmpbuf 0
  let r ← sprintf buf size (s ++ ascii "\n")
  let buf := r.1
  let size := size + r.2
  pure { ret := size, buf := buf }

/-- The reader `sunxi_serial_show`. -/
def sunxi_serial_show (env : Env) (buf : List Nat) : Except Fault Shown := do
  let databuf := List.replicate 16 0
  let tmpbuf := List.replicate 129 0
  let size := 0
  let databuf := (env.sunxi_get_serial databuf).2
  let tmpbuf ← hex_loop databuf tmpbuf
  let s ← cstr tmpbuf 0
  let r ← sprintf buf size (s ++ ascii "\n")
  let buf := r.1
  let size := size + r.2
  pure { ret := size, buf := buf }

/-! ## The fingerprint reader -/

/-- Modelled from the spec: the constant `SHA256_DIGEST_SIZE` of `crypto/sha2.h`, the
32 bytes of a 256-bit digest. -/
def SHA256_DIGEST_SIZE : Nat := 32

/-- Modelled from the spec: the constant `SHA256_BLOCK_SIZE` of `crypto/sha2.h`, the
64-byte block size the hex output buffer is sized with. -/
def SHA256_BLOCK_SIZE : Nat := 64

/-- Modelled from the spec: the errno constant `ENOMEM` behind `AllocationFailure`. -/
def ENOMEM : Int := 12

/-- Modelled from the spec: the errno constant `ENODEV` behind `ProfileNotFound`. -/
def ENODEV : Int := 19

/-- What `nc_serial_show` does to the heap and the crypto layer, in program order. -/
inductive Ev where
  | acquire (r : Res)
  | release (r : Res)
  | digest (data : List Nat)
  deriving DecidableEq, Repr

/-- Result of `nc_serial_show`: the returned `ssize_t`, the caller's buffer, and the
events of the call. -/
structure Fingerprinted where
  ret : Int
  buf : List Nat
  trace : List Ev
  deriving DecidableEq, Repr

/-- The code at the label `out:` of `nc_serial_show`, reached with `desc` assigned:
`kfree(unhashedbuf); kfree(desc); crypto_free_shash(tfm); return size;`.  The local `ret`
holds the error code of the failing step and is not used. -/
def nc_serial_out (_ret : Int) (size : Nat) (buf : List Nat) (desc_null : Bool)
    (trace : List Ev) : Fingerprinted :=
  let trace := trace ++ [Ev.release .unhashedbuf]
  -- kfree(NULL) does nothing
  let trace := if desc_null then trace else trace ++ [Ev.release .desc]
  let trace := trace ++ [Ev.release .tfm]
  { ret := size, buf := buf, trace := trace }

/-- The reader `nc_serial_show`. -/
def nc_serial_show (env : Env) (buf : List Nat) : Except Fault Fingerprinted := do
  let databuf := List.replicate 16 0
  let tmpbuf := List.replicate 129 0
  let size := 0
  -- chipid
  let databuf := (env.sunxi_get_soc_chipid databuf).2
  let tmpbuf ← hex_loop databuf tmpbuf
  -- strlen(model): `model` is unset when the lookup failed
  let model ← (match env.model with
    | some m => Except.ok m
    | none => Except.error Fault.uninit_read)
  let q ← deref_quirks env
  let s ← cstr tmpbuf 0
  let unhashedbuf_size := model.length + q.platform_name.length + s.length
  -- kmalloc(unhashedbuf_size + 1), not checked: strcpy to NULL
  if env.kmalloc_fails .unhashedbuf then throw Fault.null_deref
  let trace := [Ev.acquire .unhashedbuf]
  let unhashedbuf := fresh (env.heap_garbage .unhashedbuf) (unhashedbuf_size + 1)
  let unhashedbuf ← strcpy unhashedbuf model
  let unhashedbuf ← strcat unhashedbuf q.platform_name
  let unhashedbuf ← strcat unhashedbuf s
  match env.crypto_alloc_shash with
  | some _ =>
    -- ret = PTR_ERR(tfm); goto out; where kfree(desc) frees the never assigned `desc`
    throw Fault.uninit_free
  | none =>
    let trace := trace ++ [Ev.acquire .tfm]
    let trace := if env.kmalloc_fails .desc then trace else trace ++ [Ev.acquire .desc]
    let trace := if env.kmalloc_fails .sha256buf then trace else trace ++ [Ev.acquire .sha256buf]
    let trace := if env.kmalloc_fails .outbuf then trace else trace ++ [Ev.acquire .outbuf]
    if env.kmalloc_fails .desc || env.kmalloc_fails .sha256buf || env.kmalloc_fails .outbuf then
      -- ret = -ENOMEM; goto out;
      pure (nc_serial_out (-ENOMEM) size buf (env.kmalloc_fails .desc) trace)
    else
      let sha256buf := fresh (env.heap_garbage .sha256buf) SHA256_DIGEST_SIZE
      let outbuf := fresh (env.heap_garbage .outbuf) (SHA256_BLOCK_SIZE + 1)
      -- ret = crypto_shash_digest(desc, unhashedbuf, unhashedbuf_size, sha256buf);
      let data := unhashedbuf.take unhashedbuf_size
      let trace := trace ++ [Ev.digest data]
      let ret := (env.crypto_shash_digest data).1
      let sha256buf ← store sha256buf 0 (env.crypto_shash_digest data).2
      if ret < 0 then
        pure (nc_serial_out ret size buf false trace)
      else
        let outbuf ← for_loop SHA256_DIGEST_SIZE (fun i o => do
          let x ← load_u8 sha256buf i
          let r ← sprintf o (i * 2) (fmt_x 2 x)
          pure r.1) outbuf
        let outbuf ← store outbuf SHA256_BLOCK_SIZE [0]
        let o ← cstr outbuf 0
        let r ← sprintf buf size (o ++ ascii "\n")
        let buf := r.1
        let size := size + r.2
        pure (nc_serial_out ret size buf false trace)

/-- The resources live after the events of `trace`, starting from `live`. -/
def live_after (live : List Res) (trace : List Ev) : List Res :=
  trace.foldl (fun l e =>
    match e with
    | Ev.acquire r => l ++ [r]
    | Ev.release r => l.erase r
    | Ev.digest _ => l) live

/-- The byte sequences handed to `crypto_shash_digest` during the events of `trace`. -/
def digested : List Ev → List (List Nat)
  | [] => []
  | Ev.digest data :: rest => data :: digested rest
  | _ :: rest => digested rest

/-! ## Probe -/

/-- Outcomes of the registration calls `sunxi_info_probe` makes. -/
structure ProbeEnv where
  /-- Result of `of_device_get_match_data(&pdev->dev)`: the profile of the entry of
  `sunxi_info_match[]` the device matches, `none` for NULL. -/
  of_device_get_match_data : Option sunxi_info_quirks
  /-- Return value of `class_register(&info_class)`. -/
  class_register : Int
  /-- Return value of `class_create_file(&info_class, &info_class_attrs[i])`. -/
  class_create_file : Nat → Int
  /-- Return value of `misc_register(&soc_info_device)`. -/
  misc_register : Int

/-- What the driver has bound and registered. -/
structure DrvState where
  /-- The global `quirks`. -/
  quirks : Option sunxi_info_quirks
  /-- Whether the class `sunxi_info` is registered. -/
  class_registered : Bool
  /-- Indices into `info_class_attrs[]` of the attribute files that exist. -/
  attrs : List Nat
  /-- Whether the misc device `sunxi_soc_info` is registered. -/
  misc_registered : Bool
  deriving DecidableEq, Repr

/-- State when the driver is loaded and no device is bound. -/
def DrvState.unbound : DrvState :=
  { quirks := none, class_registered := false, attrs := [], misc_registered := false }

/-- The attribute table `info_class_attrs[]`, by name. -/
def info_class_attrs : List String := ["sys_info", "sunxi_chipid", "sunxi_serial", "nc_serial"]

/-- Modelled from the spec: `class_unregister` of the driver core, which this file only
calls: it removes the class and, with the class, the attribute files created in it (the
subsystem does not start, no attribute stays readable). -/
def class_unregister (st : DrvState) : DrvState :=
  { st with class_registered := false, attrs := [] }

/-- The loop over `info_class_attrs[]` of `sunxi_info_probe`, from index `i` on: the value
of `ret` when the loop is left and the state then. -/
def create_files (env : ProbeEnv) : List Nat → DrvState → Int × DrvState
  | [], st => (0, st)
  | i :: rest, st =>
    let ret := env.class_create_file i
    if ret ≠ 0 then (ret, st) else create_files env rest { st with attrs := st.attrs ++ [i] }

/-- The function `sunxi_info_probe`. -/
def sunxi_info_probe (env : ProbeEnv) (st : DrvState) : Int × DrvState :=
  let st := { st with quirks := env.of_device_get_match_data }
  if st.quirks = none then
    (-ENODEV, st)
  else
    let ret := env.class_register
    if ret ≠ 0 then
      (ret, st)
    else
      let st := { st with class_registered := true }
      let r := create_files env (List.range info_class_attrs.length) st
      if r.1 ≠ 0 then
        -- out_class_create_file_failed:
        (r.1, class_unregister r.2)
      else
        let ret := env.misc_register
        if ret ≠ 0 then
          (ret, class_unregister r.2)
        else
          (ret, { r.2 with misc_registered := true })

/-! ## Texts named by the specification -/

/-- Hex Codec of the specification: each byte as two lowercase hex digits, most significant
nibble first, in buffer order, no separators. -/
def hex_encode (bs : List Nat) : List Nat :=
  bs.flatMap (fun b => [hex_asc (b / 16), hex_asc (b % 16)])

/-- Whether `ch` is one of the characters `0-9a-f`. -/
def lower_hex (ch : Nat) : Bool := (48 ≤ ch && ch ≤ 57) || (97 ≤ ch && ch ≤ 102)

/-- The text the four `"%08x"` conversions of the readers produce from the 16 bytes `c`. -/
def hex_words (c : List Nat) : List Nat :=
  (List.range 4).flatMap (fun i => fmt_x 8 (to_unsigned (load_int c i)))

/-- The bytes of `c` with each group of four reversed. -/
def swap_words : List Nat → List Nat
  | a :: b :: c :: d :: rest => d :: c :: b :: a :: swap_words rest
  | rest => rest

/-- Value of a hex digit character. -/
def hex_val (ch : Nat) : Nat := if ch < 58 then ch - 48 else ch - 87

/-- Bytes of a text of two-digit hex numbers. -/
def hex_decode : List Nat → List Nat
  | hi :: lo :: rest => (16 * hex_val hi + hex_val lo) :: hex_decode rest
  | _ => []

/-- Decoder for the text of `hex_words`. -/
def hex_words_decode (t : List Nat) : List Nat := swap_words (hex_decode t)

/-- The events of a request in which every step succeeds. -/
def nc_trace_ok (msg : List Nat) : List Ev :=
  [Ev.acquire .unhashedbuf, Ev.acquire .tfm, Ev.acquire .desc, Ev.acquire .sha256buf,
    Ev.acquire .outbuf, Ev.digest msg, Ev.release .unhashedbuf, Ev.release .desc,
    Ev.release .tfm]

/-- The platform names of the entries of `sunxi_info_match[]`. -/
def registry_names : List (List Nat) := sunxi_info_match.map (fun e => e.2.platform_name)

/-! ## Sample inputs -/

/-- A stand-in for the digest engine in the examples: 32 bytes that depend on the data. -/
def sample_digest (data : List Nat) : List Nat :=
  (List.range 32).map (fun i => (data.sum + 7 * i) % 256)

/-- A request on a `sun50i-h6` board with model `test,board`, chip ID bytes `00 .. 0f`, where
every step succeeds. -/
def sample_env : Env :=
  { quirks := some sun5i_h6_info_quirks
    model := some (ascii "test,board")
    sunxi_get_soc_chipid := fun _ => (0, List.range 16)
    sunxi_get_serial := fun _ => (0, (List.range 16).map (fun i => 255 - 16 * i))
    crypto_alloc_shash := none
    kmalloc_fails := fun _ => false
    heap_garbage := fun _ i => (i * 7 + 1) % 256
    crypto_shash_digest := fun data => (0, sample_digest data) }

/-- The sample request with a chip ID accessor that fails with `-EIO` and leaves the buffer
as it was. -/
def failing_chipid_env : Env :=
  { sample_env with sunxi_get_soc_chipid := fun b => (-5, b) }

/-- The sample request with a digest call that fails with `-EINVAL`. -/
def digest_fails_env : Env :=
  { sample_env with crypto_shash_digest := fun _ => (-22, []) }

/-- The sample request with a failing `kmalloc` of `outbuf`. -/
def outbuf_fails_env : Env :=
  { sample_env with kmalloc_fails := fun r => decide (r = Res.outbuf) }

/-- The sample request with `crypto_alloc_shash` returning `ERR_PTR(-ENOENT)`. -/
def tfm_fails_env : Env :=
  { sample_env with crypto_alloc_shash := some (-2) }

/-- A caller's buffer for the examples. -/
def sample_page : List Nat := List.replicate 160 0

/-- Registration calls that all succeed, for a device matching the `sun50i-h6` entry. -/
def sample_probe_env : ProbeEnv :=
  { of_device_get_match_data := some sun5i_h6_info_quirks
    class_register := 0
    class_create_file := fun _ => 0
    misc_register := 0 }

set_option maxRecDepth 1000000

/-! ## Lemmas on memory -/

theorem store_length {b : List Nat} {off : Nat} {bs b' : List Nat}
    (h : store b off bs = .ok b') : b'.length = b.length := by
  unfold store at h
  split_ifs at h with hle
  · injection h with h
    subst h
    simp
    omega

theorem store_after (pre bs rest : List Nat) (h : bs.length ≤ rest.length) :
    store (pre ++ rest) pre.length bs = .ok (pre ++ bs ++ rest.drop bs.length) := by
  unfold store
  rw [if_pos (by simp; omega)]
  simp

theorem store_take {b : List Nat} {off : Nat} {bs b' : List Nat} {n : Nat}
    (h : store b off bs = .ok b') (hn : n ≤ off) : b'.take n = b.take n := by
  unfold store at h
  split_ifs at h with hle
  · injection h with h
    subst h
    rw [List.append_assoc, List.take_append_of_le_length (by simp; omega)]
    rw [List.take_take, Nat.min_eq_left hn]

theorem cstr_of_take (b s : List Nat) (hs : ∀ x ∈ s, x ≠ 0)
    (h : b.take (s.length + 1) = s ++ [0]) : cstr b 0 = .ok s := by
  have hb : b = (s ++ [0]) ++ b.drop (s.length + 1) := by
    rw [← h, List.take_append_drop]
  have htw : (b.drop 0).takeWhile (fun x => decide (x ≠ 0)) = s := by
    rw [List.drop_zero, hb, List.append_assoc, List.takeWhile_append_of_pos]
    · simp
    · intro x hx
      simpa using hs x hx
  unfold cstr
  simp only [htw]
  rw [if_pos]
  have := congrArg List.length hb
  simp at this
  omega

theorem cstr_head (s rest : List Nat) (hs : ∀ x ∈ s, x ≠ 0) :
    cstr (s ++ 0 :: rest) 0 = .ok s := by
  apply cstr_of_take _ _ hs
  rw [List.take_append_eq_append_take]
  simp

theorem strcpy_spec (b m : List Nat) (h : m.length < b.length) :
    strcpy b m = .ok (m ++ 0 :: b.drop (m.length + 1)) := by
  have := store_after [] (m ++ [0]) b (by simp; omega)
  simpa [strcpy] using this

theorem strcat_spec (a rest t : List Nat) (ha : ∀ x ∈ a, x ≠ 0) (h : t.length ≤ rest.length) :
    strcat (a ++ 0 :: rest) t = .ok (a ++ t ++ 0 :: rest.drop t.length) := by
  unfold strcat
  rw [cstr_head a rest ha]
  have := store_after a (t ++ [0]) (0 :: rest) (by simp; omega)
  simpa [bind, Except.bind] using this

theorem for_loop_succ {σ : Type} (n : Nat) (body : Nat → σ → Except Fault σ) (s : σ) :
    for_loop (n + 1) body s = (for_loop n body s >>= body n) := by
  unfold for_loop
  rw [List.range_succ, List.foldlM_append]
  simp

/-- A loop that stores, at `i * k`, a chunk of `k` characters and a NUL leaves the chunks in
order, a NUL, and what the buffer held behind them. -/
theorem chunk_loop (k : Nat) (w : Nat → List Nat) (hw : ∀ i, (w i).length = k)
    (body : Nat → List Nat → Except Fault (List Nat)) (n : Nat)
    (hbody : ∀ i, i < n → ∀ t, body i t = store t (i * k) (w i ++ [0]))
    (t : List Nat) (ht : n * k + 1 ≤ t.length) (hn : 0 < n) :
    for_loop n body t = .ok ((List.range n).flatMap w ++ 0 :: t.drop (n * k + 1)) := by
  induction n with
  | zero => omega
  | succ n ih =>
    rw [for_loop_succ]
    have hlen : ∀ m, ((List.range m).flatMap w).length = m * k := by
      intro m
      induction m with
      | zero => simp
      | succ m ihm =>
        rw [List.range_succ, List.flatMap_append, List.length_append, ihm]
        simp [hw, Nat.succ_mul]
    rcases Nat.eq_zero_or_pos n with h0 | hpos
    · subst h0
      have hs := store_after [] (w 0 ++ [0]) t (by simp [hw]; omega)
      have h1 : (List.range 1).flatMap w = w 0 := by simp [List.range_succ]
      rw [h1]
      simp [for_loop, bind, Except.bind, pure, Except.pure, hbody 0 (by omega)]
      simpa [hw] using hs
    · have hb : ∀ i, i < n → ∀ t, body i t = store t (i * k) (w i ++ [0]) :=
        fun i hi t => hbody i (by omega) t
      have hk : n * k + 1 ≤ t.length := by
        have : (n + 1) * k = n * k + k := Nat.succ_mul n k
        omega
      rw [ih hb hk hpos]
      have hs := store_after ((List.range n).flatMap w) (w n ++ [0]) (0 :: t.drop (n * k + 1))
        (by
          have : (n + 1) * k = n * k + k := Nat.succ_mul n k
          simp [hw]
          omega)
      rw [hlen n] at hs
      simp only [bind, Except.bind, hbody n (by omega), hs]
      rw [List.range_succ, List.flatMap_append]
      have hd : List.drop (w n ++ [0]).length (0 :: List.drop (n * k + 1) t)
          = List.drop ((n + 1) * k + 1) t := by
        have : (n + 1) * k = n * k + k := Nat.succ_mul n k
        simp [hw, List.drop_drop]
        congr 1
        omega
      rw [hd]
      simp


/-! ## Lemmas on the conversions -/

theorem hex_asc_lower (d : Nat) (h : d < 16) : lower_hex (hex_asc d) = true := by
  unfold lower_hex hex_asc
  split_ifs <;> simp <;> omega

theorem hex_asc_ne_zero (d : Nat) : hex_asc d ≠ 0 := by
  unfold hex_asc
  split_ifs <;> omega

theorem hex_val_asc (d : Nat) (h : d < 16) : hex_val (hex_asc d) = d := by
  unfold hex_val hex_asc
  split_ifs <;> omega

theorem fmt_x_two (v : Nat) (h : v < 256) :
    fmt_x 2 v = [hex_asc (v / 16), hex_asc (v % 16)] := by
  unfold fmt_x
  rw [Nat.mod_eq_of_lt (by omega)]
  simp only [hex_digits_rev]
  by_cases h1 : v < 16
  · have h2 : v / 16 = 0 := by omega
    simp [h1, h2, hex_asc]
  · have h2 : v / 16 < 16 := by omega
    have h3 : v / 16 % 16 = v / 16 := by omega
    simp [h1, h2, h3]

theorem to_unsigned_load (u : Nat) (h : u < 2 ^ 32) :
    to_unsigned (if u < 2 ^ 31 then (u : Int) else (u : Int) - 2 ^ 32) = u := by
  unfold to_unsigned
  split_ifs with h1
  · have : ((u : Int) % 2 ^ 32) = (u : Int) := by omega
    rw [this]
    simp
  · have : (((u : Int) - 2 ^ 32) % 2 ^ 32) = (u : Int) := by omega
    rw [this]
    simp

theorem hex_digits_pad (f v : Nat) (hv : v < 16 ^ f) :
    hex_digits_rev f v ++ List.replicate (f - (hex_digits_rev f v).length) 48
      = (List.range f).map (fun j => hex_asc (v / 16 ^ j % 16)) := by
  induction f generalizing v with
  | zero => simp [hex_digits_rev]
  | succ f ih =>
    rw [List.range_succ_eq_map]
    simp only [hex_digits_rev, List.map_cons, List.map_map, pow_zero, Nat.div_one]
    by_cases h1 : v < 16
    · simp only [h1, if_true, List.length_cons, List.length_nil, List.cons_append,
        List.nil_append]
      congr 1
      have hz : ∀ j, v / 16 ^ (j + 1) = 0 := by
        intro j
        apply Nat.div_eq_of_lt
        calc v < 16 := h1
          _ = 16 ^ 1 := by norm_num
          _ ≤ 16 ^ (j + 1) := Nat.pow_le_pow_right (by norm_num) (by omega)
      have : (fun j => hex_asc (v / 16 ^ j % 16)) ∘ Nat.succ = fun _ => 48 := by
        funext j
        simp [hz, hex_asc]
      rw [this]
      simp [List.eq_replicate_iff]
    · simp only [h1, if_false, List.length_cons, List.cons_append]
      congr 1
      have hv' : v / 16 < 16 ^ f := by
        rw [Nat.div_lt_iff_lt_mul (by norm_num)]
        calc v < 16 ^ (f + 1) := hv
          _ = 16 ^ f * 16 := by ring
      have e := ih (v / 16) hv'
      have hsub : f + 1 - ((hex_digits_rev f (v / 16)).length + 1)
          = f - (hex_digits_rev f (v / 16)).length := by omega
      rw [hsub, e]
      apply List.map_congr_left
      intro j _
      simp only [Function.comp, Nat.succ_eq_add_one]
      rw [Nat.div_div_eq_div_mul, pow_succ, Nat.mul_comm]

theorem fmt_x_eight (v : Nat) (h : v < 2 ^ 32) :
    fmt_x 8 v = [hex_asc (v / 268435456 % 16), hex_asc (v / 16777216 % 16),
      hex_asc (v / 1048576 % 16), hex_asc (v / 65536 % 16), hex_asc (v / 4096 % 16),
      hex_asc (v / 256 % 16), hex_asc (v / 16 % 16), hex_asc (v % 16)] := by
  unfold fmt_x
  rw [Nat.mod_eq_of_lt h]
  simp only []
  rw [hex_digits_pad 8 v (by norm_num at h ⊢; exact h)]
  simp [List.range_succ]

/-- The text of one `"%08x"` conversion of `databuf[i]`, by the bytes of the word. -/
theorem fmt_x_word (c : List Nat) (i : Nat) :
    fmt_x 8 (to_unsigned (load_int c i))
      = hex_encode [c.getD (4 * i + 3) 0 % 256, c.getD (4 * i + 2) 0 % 256,
          c.getD (4 * i + 1) 0 % 256, c.getD (4 * i) 0 % 256] := by
  unfold load_int
  simp only []
  have h0 : c.getD (4 * i) 0 % 256 < 256 := Nat.mod_lt _ (by norm_num)
  have h1 : c.getD (4 * i + 1) 0 % 256 < 256 := Nat.mod_lt _ (by norm_num)
  have h2 : c.getD (4 * i + 2) 0 % 256 < 256 := Nat.mod_lt _ (by norm_num)
  have h3 : c.getD (4 * i + 3) 0 % 256 < 256 := Nat.mod_lt _ (by norm_num)
  generalize c.getD (4 * i) 0 % 256 = b0 at h0 ⊢
  generalize c.getD (4 * i + 1) 0 % 256 = b1 at h1 ⊢
  generalize c.getD (4 * i + 2) 0 % 256 = b2 at h2 ⊢
  generalize c.getD (4 * i + 3) 0 % 256 = b3 at h3 ⊢
  rw [to_unsigned_load _ (by omega), fmt_x_eight _ (by omega)]
  have e7 : (b0 + 256 * b1 + 65536 * b2 + 16777216 * b3) / 268435456 % 16 = b3 / 16 := by omega
  have e6 : (b0 + 256 * b1 + 65536 * b2 + 16777216 * b3) / 16777216 % 16 = b3 % 16 := by omega
  have e5 : (b0 + 256 * b1 + 65536 * b2 + 16777216 * b3) / 1048576 % 16 = b2 / 16 := by omega
  have e4 : (b0 + 256 * b1 + 65536 * b2 + 16777216 * b3) / 65536 % 16 = b2 % 16 := by omega
  have e3 : (b0 + 256 * b1 + 65536 * b2 + 16777216 * b3) / 4096 % 16 = b1 / 16 := by omega
  have e2 : (b0 + 256 * b1 + 65536 * b2 + 16777216 * b3) / 256 % 16 = b1 % 16 := by omega
  have e1 : (b0 + 256 * b1 + 65536 * b2 + 16777216 * b3) / 16 % 16 = b0 / 16 := by omega
  have e0 : (b0 + 256 * b1 + 65536 * b2 + 16777216 * b3) % 16 = b0 % 16 := by omega
  rw [e7, e6, e5, e4, e3, e2, e1, e0]
  simp [hex_encode]

theorem hex_encode_append (a b : List Nat) : hex_encode (a ++ b) = hex_encode a ++ hex_encode b := by
  simp [hex_encode]

theorem hex_encode_length (bs : List Nat) : (hex_encode bs).length = 2 * bs.length := by
  induction bs with
  | nil => simp [hex_encode]
  | cons b bs ih =>
    have : hex_encode (b :: bs) = hex_asc (b / 16) :: hex_asc (b % 16) :: hex_encode bs := by
      simp [hex_encode]
    rw [this]
    simp [ih]
    omega

theorem hex_encode_lower (bs : List Nat) (hb : ∀ x ∈ bs, x < 256) :
    ∀ ch ∈ hex_encode bs, lower_hex ch = true := by
  intro ch hch
  simp only [hex_encode, List.mem_flatMap, List.mem_cons, List.mem_singleton] at hch
  obtain ⟨b, hbm, hch⟩ := hch
  have := hb b hbm
  simp only [List.not_mem_nil, or_false] at hch
  rcases hch with h | h
  · rw [h]
    exact hex_asc_lower _ (by omega)
  · rw [h]
    exact hex_asc_lower _ (by omega)

theorem hex_encode_ne_zero (bs : List Nat) : ∀ ch ∈ hex_encode bs, ch ≠ 0 := by
  intro ch hch
  simp only [hex_encode, List.mem_flatMap, List.mem_cons, List.mem_singleton] at hch
  obtain ⟨b, _, hch⟩ := hch
  simp only [List.not_mem_nil, or_false] at hch
  rcases hch with h | h <;> rw [h] <;> exact hex_asc_ne_zero _

theorem hex_decode_encode (bs : List Nat) (hb : ∀ x ∈ bs, x < 256) :
    hex_decode (hex_encode bs) = bs := by
  induction bs with
  | nil => simp [hex_encode, hex_decode]
  | cons b bs ih =>
    have e : hex_encode (b :: bs) = hex_asc (b / 16) :: hex_asc (b % 16) :: hex_encode bs := by
      simp [hex_encode]
    have hlt := hb b (by simp)
    rw [e, hex_decode, ih (fun x hx => hb x (by simp [hx])),
      hex_val_asc _ (by omega), hex_val_asc _ (by omega)]
    congr 1
    omega

/-- The text of the four conversions is the hex text of the bytes with every word reversed. -/
theorem hex_words_eq (c : List Nat) (hlen : c.length = 16) (hb : ∀ x ∈ c, x < 256) :
    hex_words c = hex_encode (swap_words c) := by
  match c, hlen with
  | [c0, c1, c2, c3, c4, c5, c6, c7, c8, c9, c10, c11, c12, c13, c14, c15], _ =>
    have m : ∀ x ∈ [c0, c1, c2, c3, c4, c5, c6, c7, c8, c9, c10, c11, c12, c13, c14, c15],
        x % 256 = x := fun x hx => Nat.mod_eq_of_lt (hb x hx)
    simp only [List.mem_cons, List.mem_singleton, List.not_mem_nil, or_false, forall_eq_or_imp,
      forall_eq] at m
    obtain ⟨m0, m1, m2, m3, m4, m5, m6, m7, m8, m9, m10, m11, m12, m13, m14, m15⟩ := m
    have r : List.range 4 = [0, 1, 2, 3] := by decide
    simp only [hex_words, r, List.flatMap_cons, List.flatMap_nil, fmt_x_word, swap_words,
      List.append_nil]
    simp [hex_encode, m0, m1, m2, m3, m4, m5, m6, m7, m8, m9, m10, m11, m12, m13, m14, m15]

theorem swap_words_length (c : List Nat) : (swap_words c).length = c.length := by
  match c with
  | [] => simp [swap_words]
  | [_] => simp [swap_words]
  | [_, _] => simp [swap_words]
  | [_, _, _] => simp [swap_words]
  | _ :: _ :: _ :: _ :: rest =>
    simp [swap_words, swap_words_length rest]

theorem swap_words_mem (c : List Nat) : ∀ x, x ∈ swap_words c ↔ x ∈ c := by
  match c with
  | [] => simp [swap_words]
  | [_] => simp [swap_words]
  | [_, _] => simp [swap_words]
  | [_, _, _] => simp [swap_words]
  | _ :: _ :: _ :: _ :: rest =>
    intro x
    simp only [swap_words, List.mem_cons, swap_words_mem rest x]
    tauto

theorem swap_words_swap (c : List Nat) (h : c.length = 16) : swap_words (swap_words c) = c := by
  match c, h with
  | [c0, c1, c2, c3, c4, c5, c6, c7, c8, c9, c10, c11, c12, c13, c14, c15], _ =>
    simp [swap_words]

theorem hex_words_length (c : List Nat) : (hex_words c).length = 32 := by
  have r : List.range 4 = [0, 1, 2, 3] := by decide
  simp [hex_words, r, fmt_x_word, hex_encode]

theorem hex_words_lower (c : List Nat) : ∀ ch ∈ hex_words c, lower_hex ch = true := by
  have r : List.range 4 = [0, 1, 2, 3] := by decide
  have hm : ∀ x : Nat, x % 256 < 256 := fun x => Nat.mod_lt _ (by norm_num)
  simp only [hex_words, r, List.flatMap_cons, List.flatMap_nil, fmt_x_word, List.append_nil,
    ← hex_encode_append]
  apply hex_encode_lower
  intro x hx
  simp only [List.cons_append, List.nil_append, List.mem_cons, List.not_mem_nil, or_false] at hx
  rcases hx with h | h | h | h | h | h | h | h | h | h | h | h | h | h | h | h <;> rw [h] <;>
    exact hm _

theorem hex_words_ne_zero (c : List Nat) : ∀ ch ∈ hex_words c, ch ≠ 0 := by
  intro ch hch h0
  have := hex_words_lower c ch hch
  rw [h0] at this
  simp [lower_hex] at this

theorem hex_words_roundtrip (c : List Nat) (hlen : c.length = 16) (hb : ∀ x ∈ c, x < 256) :
    hex_words_decode (hex_words c) = c := by
  rw [hex_words_eq c hlen hb, hex_words_decode,
    hex_decode_encode _ (fun x hx => hb x ((swap_words_mem c x).1 hx)), swap_words_swap c hlen]

/-! ## The conversion loop of the readers -/

theorem sprintf_fst (t : List Nat) (off : Nat) (x : List Nat) :
    (sprintf t off x >>= fun r => pure r.1) = store t off (x ++ [0]) := by
  unfold sprintf
  cases store t off (x ++ [0]) <;> rfl

theorem sprintf_ok {b : List Nat} {off : Nat} {text b' : List Nat}
    (h : store b off (text ++ [0]) = .ok b') : sprintf b off text = .ok (b', text.length) := by
  unfold sprintf
  rw [h]
  rfl

/-- Whatever `tmpbuf` held, after the loop it holds the text of the four conversions as a
C string. -/
theorem hex_loop_spec (c t : List Nat) (ht : t.length = 129) :
    ∃ t', hex_loop c t = .ok t' ∧ t'.length = 129 ∧ cstr t' 0 = .ok (hex_words c) := by
  have hloop := chunk_loop 8 (fun i => fmt_x 8 (to_unsigned (load_int c i)))
    (fun i => by simp only [fmt_x_word, hex_encode_length]; rfl)
    (fun i t => do
      let r ← sprintf t (i * 8) (fmt_x 8 (to_unsigned (load_int c i)))
      pure r.1) 4 (fun i _ t => sprintf_fst _ _ _) t (by omega) (by omega)
  have hstore : ∃ t', store (hex_words c ++ 0 :: List.drop (4 * 8 + 1) t) 128 [0] = .ok t' := by
    unfold store
    rw [if_pos (by simp [hex_words_length]; omega)]
    exact ⟨_, rfl⟩
  obtain ⟨t', ht'⟩ := hstore
  refine ⟨t', ?_, ?_, ?_⟩
  · unfold hex_loop
    rw [hloop]
    exact ht'
  · rw [store_length ht']
    simp [hex_words_length]
    omega
  · apply cstr_of_take _ _ (hex_words_ne_zero c)
    rw [hex_words_length, store_take ht' (by omega)]
    rw [List.take_append_eq_append_take, hex_words_length]
    simp [List.take_of_length_le, hex_words_length]

theorem sprintf_zero (buf text : List Nat) (h : text.length < buf.length) :
    sprintf buf 0 text = .ok (text ++ 0 :: buf.drop (text.length + 1), text.length) := by
  have hs := store_after [] (text ++ [0]) buf (by simp; omega)
  have := sprintf_ok hs
  simpa using this

theorem sprintf_append (pre rest text : List Nat) (n : Nat) (hn : n = pre.length)
    (h : text.length ≤ rest.length) :
    sprintf (pre ++ 0 :: rest) n text
      = .ok (pre ++ text ++ 0 :: rest.drop text.length, text.length) := by
  subst hn
  have hs := store_after pre (text ++ [0]) (0 :: rest) (by simp; omega)
  have := sprintf_ok hs
  simpa using this

/-! ## The plain readers -/

theorem sunxi_chipid_show_spec (env : Env) (buf : List Nat) (hbuf : 33 < buf.length) :
    sunxi_chipid_show env buf
      = .ok ⟨33, hex_words (env.sunxi_get_soc_chipid (List.replicate 16 0)).2 ++ ascii "\n"
          ++ 0 :: buf.drop 34⟩ := by
  obtain ⟨t', h1, _, h3⟩ := hex_loop_spec (env.sunxi_get_soc_chipid (List.replicate 16 0)).2
    (List.replicate 129 0) (by simp)
  have hl : (hex_words (env.sunxi_get_soc_chipid (List.replicate 16 0)).2 ++ ascii "\n").length
      = 33 := by
    simp [hex_words_length, ascii]
  have h4 := sprintf_zero buf
    (hex_words (env.sunxi_get_soc_chipid (List.replicate 16 0)).2 ++ ascii "\n") (by omega)
  rw [hl] at h4
  simp only [sunxi_chipid_show, bind, Except.bind, h1, h3, h4, pure, Except.pure]
  simp

theorem sunxi_serial_show_spec (env : Env) (buf : List Nat) (hbuf : 33 < buf.length) :
    sunxi_serial_show env buf
      = .ok ⟨33, hex_words (env.sunxi_get_serial (List.replicate 16 0)).2 ++ ascii "\n"
          ++ 0 :: buf.drop 34⟩ := by
  obtain ⟨t', h1, _, h3⟩ := hex_loop_spec (env.sunxi_get_serial (List.replicate 16 0)).2
    (List.replicate 129 0) (by simp)
  have hl : (hex_words (env.sunxi_get_serial (List.replicate 16 0)).2 ++ ascii "\n").length
      = 33 := by
    simp [hex_words_length, ascii]
  have h4 := sprintf_zero buf
    (hex_words (env.sunxi_get_serial (List.replicate 16 0)).2 ++ ascii "\n") (by omega)
  rw [hl] at h4
  simp only [sunxi_serial_show, bind, Except.bind, h1, h3, h4, pure, Except.pure]
  simp

theorem deref_quirks_some {env : Env} {q : sunxi_info_quirks} (hq : env.quirks = some q) :
    deref_quirks env = .ok q := by
  simp [deref_quirks, hq]

/-- Three `sprintf` calls in a row, each at the offset the sizes so far add up to. -/
theorem sprintf_three (buf t1 t2 t3 : List Nat)
    (h : t1.length + t2.length + t3.length < buf.length) :
    (do
      let r1 ← sprintf buf 0 t1
      let r2 ← sprintf r1.1 (0 + r1.2) t2
      let r3 ← sprintf r2.1 (0 + r1.2 + r2.2) t3
      pure (r3.1, 0 + r1.2 + r2.2 + r3.2))
      = Except.ok (t1 ++ t2 ++ t3 ++ 0 :: buf.drop (t1.length + t2.length + t3.length + 1),
          t1.length + t2.length + t3.length) := by
  have p1 := sprintf_zero buf t1 (by omega)
  have p2 := sprintf_append t1 (buf.drop (t1.length + 1)) t2 (0 + t1.length) (by simp)
    (by rw [List.length_drop]; omega)
  have p3 := sprintf_append (t1 ++ t2) ((buf.drop (t1.length + 1)).drop t2.length) t3
    (0 + t1.length + t2.length) (by simp)
    (by rw [List.length_drop, List.length_drop]; omega)
  simp only [List.drop_drop] at p2 p3
  simp only [bind, Except.bind, p1, p2, p3, pure, Except.pure]
  have e : t1.length + 1 + t2.length + t3.length = t1.length + t2.length + t3.length + 1 := by
    omega
  rw [e]
  simp

theorem sys_info_show_spec (env : Env) (q : sunxi_info_quirks) (buf : List Nat)
    (hq : env.quirks = some q) (hbuf : 127 + q.platform_name.length < buf.length) :
    sys_info_show env buf
      = .ok ⟨127 + q.platform_name.length,
          ascii "sunxi_platform    : " ++ q.platform_name ++ ascii "\n"
          ++ (ascii "sunxi_chipid      : "
            ++ hex_words (env.sunxi_get_soc_chipid (List.replicate 16 0)).2 ++ ascii "\n")
          ++ (ascii "sunxi_serial      : "
            ++ hex_words (env.sunxi_get_serial
                (env.sunxi_get_soc_chipid (List.replicate 16 0)).2).2 ++ ascii "\n")
          ++ 0 :: buf.drop (128 + q.platform_name.length)⟩ := by
  generalize hc : (env.sunxi_get_soc_chipid (List.replicate 16 0)).2 = c
  generalize hs : (env.sunxi_get_serial c).2 = s
  obtain ⟨t1, h1, h1l, h1c⟩ := hex_loop_spec c (List.replicate 129 0) (by simp)
  obtain ⟨t2, h2, _, h2c⟩ := hex_loop_spec s t1 h1l
  have a1 : (ascii "sunxi_platform    : ").length = 20 := by decide
  have a2 : (ascii "sunxi_chipid      : ").length = 20 := by decide
  have a3 : (ascii "sunxi_serial      : ").length = 20 := by decide
  have a4 : (ascii "\n").length = 1 := by decide
  unfold sys_info_show
  generalize ascii "sunxi_platform    : " = l1 at a1 ⊢
  generalize ascii "sunxi_chipid      : " = l2 at a2 ⊢
  generalize ascii "sunxi_serial      : " = l3 at a3 ⊢
  generalize ascii "\n" = nl at a4 ⊢
  have hw1 := hex_words_length c
  have hw2 := hex_words_length s
  have p := sprintf_three buf (l1 ++ q.platform_name ++ nl) (l2 ++ hex_words c ++ nl)
    (l3 ++ hex_words s ++ nl) (by simp only [List.length_append]; omega)
  have e1 : (l1 ++ q.platform_name ++ nl).length + (l2 ++ hex_words c ++ nl).length
      + (l3 ++ hex_words s ++ nl).length = 127 + q.platform_name.length := by
    simp only [List.length_append]; omega
  rw [e1] at p
  have e2 : 127 + q.platform_name.length + 1 = 128 + q.platform_name.length := by omega
  rw [e2] at p
  simp only [bind, Except.bind, deref_quirks_some hq, hc, hs, h1, h1c, h2, h2c, pure,
    Except.pure] at p ⊢
  revert p
  cases sprintf buf 0 (l1 ++ q.platform_name ++ nl) with
  | error e => intro p; cases p
  | ok r1 =>
    simp only []
    cases sprintf r1.1 (0 + r1.2) (l2 ++ hex_words c ++ nl) with
    | error e => intro p; cases p
    | ok r2 =>
      simp only []
      cases sprintf r2.1 (0 + r1.2 + r2.2) (l3 ++ hex_words s ++ nl) with
      | error e => intro p; cases p
      | ok r3 =>
        simp only []
        intro p
        injection p with p
        injection p with p1 p2
        rw [p1, p2]
        simp

/-! ## The fingerprint reader -/

theorem fresh_length (g : Nat → Nat) (n : Nat) : (fresh g n).length = n := by
  simp [fresh]

theorem range_map_getD (d : List Nat) : (List.range d.length).map (fun i => d.getD i 0) = d := by
  apply List.ext_getElem
  · simp
  · intro i h1 h2
    simp [List.getElem?_eq_getElem h2]

theorem range_flatMap_getD (d : List Nat) (f : Nat → List Nat) :
    (List.range d.length).flatMap (fun i => f (d.getD i 0)) = d.flatMap f := by
  conv_rhs => rw [← range_map_getD d]
  rw [List.flatMap_def, List.flatMap_def, List.map_map]
  rfl

theorem load_u8_lt (d : List Nat) (i : Nat) (h : i < d.length) :
    load_u8 d i = .ok (d.getD i 0 % 256) := by
  simp [load_u8, h]

/-- The strings `model`, `platform_name` and the chip ID text end up in `unhashedbuf` one
after the other, followed by the NUL. -/
theorem unhashedbuf_spec (u m p s : List Nat) (hm : ∀ x ∈ m, x ≠ 0) (hp : ∀ x ∈ p, x ≠ 0)
    (hu : u.length = m.length + p.length + s.length + 1) :
    ∃ u1 u2, strcpy u m = .ok u1 ∧ strcat u1 p = .ok u2 ∧
      strcat u2 s = .ok (m ++ p ++ s ++ [0]) := by
  have h1 := strcpy_spec u m (by omega)
  have h2 := strcat_spec m (u.drop (m.length + 1)) p hm (by rw [List.length_drop]; omega)
  have h3 := strcat_spec (m ++ p) ((u.drop (m.length + 1)).drop p.length) s
    (by
      intro x hx
      rcases List.mem_append.1 hx with h | h
      · exact hm x h
      · exact hp x h)
    (by rw [List.length_drop, List.length_drop]; omega)
  refine ⟨_, _, h1, h2, ?_⟩
  rw [h3]
  have : List.drop s.length (List.drop p.length (List.drop (m.length + 1) u)) = [] := by
    apply List.eq_nil_of_length_eq_zero
    rw [List.length_drop, List.length_drop, List.length_drop]
    omega
  rw [this]

/-- The loop over the digest bytes and the store of the terminator leave the hex text of the
digest in `outbuf` as a C string, whatever the buffer held. -/
theorem outbuf_spec (d o : List Nat) (hd : d.length = 32) (hb : ∀ x ∈ d, x < 256)
    (ho : o.length = 65) :
    ∃ o1 o2, for_loop SHA256_DIGEST_SIZE (fun i o => do
        let x ← load_u8 d i
        let r ← sprintf o (i * 2) (fmt_x 2 x)
        pure r.1) o = .ok o1 ∧ store o1 SHA256_BLOCK_SIZE [0] = .ok o2 ∧
      cstr o2 0 = .ok (hex_encode d) := by
  have hloop := chunk_loop 2 (fun i => fmt_x 2 (d.getD i 0 % 256))
    (fun i => by
      simp only []
      rw [fmt_x_two _ (Nat.mod_lt _ (by norm_num))]
      rfl)
    (fun i o => do
      let x ← load_u8 d i
      let r ← sprintf o (i * 2) (fmt_x 2 x)
      pure r.1) 32
    (fun i hi t => by
      simp only []
      rw [load_u8_lt d i (by omega)]
      exact sprintf_fst _ _ _) o (by omega) (by omega)
  have hw : (List.range 32).flatMap (fun i => fmt_x 2 (d.getD i 0 % 256)) = hex_encode d := by
    have := range_flatMap_getD d (fun x => fmt_x 2 (x % 256))
    rw [hd] at this
    rw [this, hex_encode]
    apply List.flatMap_congr
    intro x hx
    rw [Nat.mod_eq_of_lt (hb x hx), fmt_x_two _ (hb x hx)]
  rw [hw] at hloop
  have hdrop : List.drop (32 * 2 + 1) o = [] := by
    apply List.eq_nil_of_length_eq_zero
    rw [List.length_drop]
    omega
  rw [hdrop] at hloop
  have hl : (hex_encode d).length = 64 := by rw [hex_encode_length, hd]
  have hs := store_after (hex_encode d) [0] [0] (by simp)
  rw [hl] at hs
  refine ⟨_, _, hloop, hs, ?_⟩
  have := cstr_head (hex_encode d) [] (hex_encode_ne_zero d)
  simpa using this

/-- The result of `nc_serial_show` when the model lookup, the allocations and the digest call
succeed; the status of the chip ID accessor plays no part. -/
theorem nc_serial_show_ok (env : Env) (buf m : List Nat) (q : sunxi_info_quirks)
    (d : List Nat) (rc : Int)
    (hm : env.model = some m) (hq : env.quirks = some q)
    (hm0 : ∀ x ∈ m, x ≠ 0) (hp0 : ∀ x ∈ q.platform_name, x ≠ 0)
    (htfm : env.crypto_alloc_shash = none) (hk : ∀ r, env.kmalloc_fails r = false)
    (hdig : env.crypto_shash_digest (m ++ q.platform_name
      ++ hex_words (env.sunxi_get_soc_chipid (List.replicate 16 0)).2) = (rc, d))
    (hrc : 0 ≤ rc) (hd : d.length = 32) (hb : ∀ x ∈ d, x < 256) (hbuf : 65 < buf.length) :
    nc_serial_show env buf
      = .ok ⟨65, hex_encode d ++ ascii "\n" ++ 0 :: buf.drop 66,
          nc_trace_ok (m ++ q.platform_name
            ++ hex_words (env.sunxi_get_soc_chipid (List.replicate 16 0)).2)⟩ := by
  generalize hc : (env.sunxi_get_soc_chipid (List.replicate 16 0)).2 = c at hdig ⊢
  obtain ⟨t1, h1, _, h1c⟩ := hex_loop_spec c (List.replicate 129 0) (by simp)
  have hwl := hex_words_length c
  obtain ⟨u1, u2, hu1, hu2, hu3⟩ := unhashedbuf_spec
    (fresh (env.heap_garbage .unhashedbuf)
      (m.length + q.platform_name.length + (hex_words c).length + 1))
    m q.platform_name (hex_words c) hm0 hp0 (fresh_length _ _)
  have htake : List.take (m.length + q.platform_name.length + (hex_words c).length)
      (m ++ q.platform_name ++ hex_words c ++ [0]) = m ++ q.platform_name ++ hex_words c := by
    rw [List.take_append_of_le_length (by simp only [List.length_append]; omega)]
    apply List.take_of_length_le
    simp only [List.length_append]
    omega
  have hsha : store (fresh (env.heap_garbage .sha256buf) SHA256_DIGEST_SIZE) 0 d = .ok d := by
    have := store_after [] d (fresh (env.heap_garbage .sha256buf) SHA256_DIGEST_SIZE)
      (by rw [fresh_length, hd]; decide)
    simp only [List.nil_append, List.length_nil] at this
    rw [this]
    have e : List.drop d.length (fresh (env.heap_garbage .sha256buf) SHA256_DIGEST_SIZE)
        = [] := by
      apply List.eq_nil_of_length_eq_zero
      rw [List.length_drop, fresh_length, hd]
      decide
    rw [e]
    simp
  obtain ⟨o1, o2, ho1, ho2, ho3⟩ := outbuf_spec d
    (fresh (env.heap_garbage .outbuf) (SHA256_BLOCK_SIZE + 1)) hd hb
    (by rw [fresh_length]; decide)
  have hl : (hex_encode d ++ ascii "\n").length = 65 := by
    rw [List.length_append, hex_encode_length, hd]
    decide
  have hout := sprintf_zero buf (hex_encode d ++ ascii "\n") (by omega)
  rw [hl] at hout
  have hneg : ¬ rc < 0 := by omega
  simp only [bind, Except.bind, pure, Except.pure] at ho1
  simp only [nc_serial_show, bind, Except.bind, h1, hm, deref_quirks_some hq, h1c, hk,
    hu1, hu2, hu3, htfm, htake, hdig, hsha, ho1, ho2, ho3, hout, pure, Except.pure,
    Bool.false_eq_true, if_false, Bool.or_self, hneg, hc, nc_serial_out, nc_trace_ok]
  simp

/-- Whenever `nc_serial_show` returns, whatever it handed to the digest is the model, the
platform name and the chip ID text, one after the other. -/
theorem nc_serial_show_digested (env : Env) (buf m : List Nat) (q : sunxi_info_quirks)
    (r : Fingerprinted) (hm : env.model = some m) (hq : env.quirks = some q)
    (hm0 : ∀ x ∈ m, x ≠ 0) (hp0 : ∀ x ∈ q.platform_name, x ≠ 0)
    (h : nc_serial_show env buf = .ok r) :
    ∀ x ∈ digested r.trace, x = m ++ q.platform_name
      ++ hex_words (env.sunxi_get_soc_chipid (List.replicate 16 0)).2 := by
  generalize hc : (env.sunxi_get_soc_chipid (List.replicate 16 0)).2 = c at h ⊢
  obtain ⟨t1, h1, _, h1c⟩ := hex_loop_spec c (List.replicate 129 0) (by simp)
  obtain ⟨u1, u2, hu1, hu2, hu3⟩ := unhashedbuf_spec
    (fresh (env.heap_garbage .unhashedbuf)
      (m.length + q.platform_name.length + (hex_words c).length + 1))
    m q.platform_name (hex_words c) hm0 hp0 (fresh_length _ _)
  have htake : List.take (m.length + q.platform_name.length + (hex_words c).length)
      (m ++ q.platform_name ++ hex_words c ++ [0]) = m ++ q.platform_name ++ hex_words c := by
    rw [List.take_append_of_le_length (by simp only [List.length_append]; omega)]
    apply List.take_of_length_le
    simp only [List.length_append]
    omega
  simp only [nc_serial_show, bind, Except.bind, h1, hm, deref_quirks_some hq, h1c, hc,
    pure, Except.pure] at h
  cases hk0 : env.kmalloc_fails .unhashedbuf
  · simp only [hk0, Bool.false_eq_true, if_false, hu1, hu2, hu3, htake] at h
    cases htfm : env.crypto_alloc_shash with
    | some e =>
      simp only [htfm] at h
      cases h
    | none =>
      simp only [htfm] at h
      split at h
      · injection h with h
        subst h
        cases env.kmalloc_fails .desc <;> cases env.kmalloc_fails .sha256buf <;>
          cases env.kmalloc_fails .outbuf <;> simp [nc_serial_out, digested]
      · rename_i hks
        simp only [Bool.or_eq_true, not_or, Bool.not_eq_true] at hks
        obtain ⟨⟨hk1, hk2⟩, hk3⟩ := hks
        simp only [hk1, hk2, hk3, Bool.false_eq_true, if_false] at h
        repeat' split at h
        all_goals
          cases h
          try (intro x hx; simpa [nc_serial_out, digested] using hx)
  · simp only [hk0, if_true] at h
    cases h

/-! ## The canonical message is unambiguous -/

theorem registry_names_suffix :
    ∀ p ∈ registry_names, ∀ p' ∈ registry_names,
      p.reverse.take 9 = p'.reverse.take 9 → p = p' := by
  decide

theorem registry_names_length : ∀ p ∈ registry_names, 9 ≤ p.length := by
  decide

theorem registry_names_ne_zero : ∀ p ∈ registry_names, ∀ x ∈ p, x ≠ 0 := by
  decide

theorem take_reverse_append (m p : List Nat) (h : 9 ≤ p.length) :
    ((m ++ p).reverse).take 9 = p.reverse.take 9 := by
  rw [List.reverse_append, List.take_append_of_le_length (by simpa using h)]

/-- Model, registry platform name and chip ID can be read back from the canonical message. -/
theorem canonical_message_inj (m m' p p' c c' : List Nat)
    (hp : p ∈ registry_names) (hp' : p' ∈ registry_names)
    (hc : c.length = 16) (hcb : ∀ x ∈ c, x < 256)
    (hc' : c'.length = 16) (hcb' : ∀ x ∈ c', x < 256)
    (h : m ++ p ++ hex_words c = m' ++ p' ++ hex_words c') :
    m = m' ∧ p = p' ∧ c = c' := by
  obtain ⟨h1, h2⟩ := List.append_inj' h (by rw [hex_words_length, hex_words_length])
  have hcc : c = c' := by
    have := congrArg hex_words_decode h2
    rwa [hex_words_roundtrip c hc hcb, hex_words_roundtrip c' hc' hcb'] at this
  have hpp : p = p' := by
    apply registry_names_suffix p hp p' hp'
    rw [← take_reverse_append m p (registry_names_length p hp), h1,
      take_reverse_append m' p' (registry_names_length p' hp')]
  subst hpp
  exact ⟨List.append_cancel_right h1, rfl, hcc⟩

/-! ## Probe -/

theorem create_files_spec (env : ProbeEnv) (l : List Nat) (st : DrvState) :
    (create_files env l st).2.quirks = st.quirks
      ∧ (create_files env l st).2.class_registered = st.class_registered
      ∧ (create_files env l st).2.misc_registered = st.misc_registered
      ∧ ((create_files env l st).1 = 0 → (create_files env l st).2.attrs = st.attrs ++ l) := by
  induction l generalizing st with
  | nil => simp [create_files]
  | cons i rest ih =>
    unfold create_files
    by_cases h : env.class_create_file i = 0
    · simp only [h, ne_eq, not_true_eq_false, if_false]
      obtain ⟨h1, h2, h3, h4⟩ := ih { st with attrs := st.attrs ++ [i] }
      refine ⟨h1, h2, h3, ?_⟩
      intro h0
      rw [h4 h0]
      simp
    · simp [h]

theorem sample_digest_length (data : List Nat) : (sample_digest data).length = 32 := by
  simp [sample_digest]

theorem sample_digest_bytes (data : List Nat) : ∀ x ∈ sample_digest data, x < 256 := by
  intro x hx
  simp only [sample_digest, List.mem_map] at hx
  obtain ⟨i, _, rfl⟩ := hx
  exact Nat.mod_lt _ (by norm_num)

theorem text_ne_zero (d : List Nat) : ∀ x ∈ hex_encode d ++ ascii "\n", x ≠ 0 := by
  intro x hx
  rcases List.mem_append.1 hx with h | h
  · exact hex_encode_ne_zero d x h
  · have : x = 10 := by simpa [ascii] using h
    omega

/-! ## Claims -/

/-- C1: when the model lookup, every allocation and the digest call succeed, `nc_serial_show`
hands to the digest exactly one byte sequence, the model, the platform name and the 32
character chip ID text one after the other with nothing between or behind them, of length
`len m + len p + 32`, and the text it writes is the lowercase hex text of the digest of that
sequence followed by one newline. -/
theorem nc_serial_show_canonical_message (env : Env) (buf m : List Nat) (q : sunxi_info_quirks)
    (st : Int) (c d : List Nat) (rc : Int)
    (hm : env.model = some m) (hq : env.quirks = some q)
    (hm0 : ∀ x ∈ m, x ≠ 0) (hp0 : ∀ x ∈ q.platform_name, x ≠ 0)
    (hacc : env.sunxi_get_soc_chipid (List.replicate 16 0) = (st, c))
    (htfm : env.crypto_alloc_shash = none) (hk : ∀ r, env.kmalloc_fails r = false)
    (hdig : env.crypto_shash_digest (m ++ q.platform_name ++ hex_words c) = (rc, d))
    (hrc : 0 ≤ rc) (hd : d.length = 32) (hb : ∀ x ∈ d, x < 256) (hbuf : 65 < buf.length) :
    ∃ r, nc_serial_show env buf = .ok r
      ∧ digested r.trace = [m ++ q.platform_name ++ hex_words c]
      ∧ (m ++ q.platform_name ++ hex_words c).length = m.length + q.platform_name.length + 32
      ∧ (hex_words c).length = 32
      ∧ (∀ x ∈ m ++ q.platform_name ++ hex_words c, x ≠ 0)
      ∧ cstr r.buf 0 = .ok (hex_encode d ++ ascii "\n") := by
  have hc : (env.sunxi_get_soc_chipid (List.replicate 16 0)).2 = c := by rw [hacc]
  have h := nc_serial_show_ok env buf m q d rc hm hq hm0 hp0 htfm hk (by rw [hc]; exact hdig)
    hrc hd hb hbuf
  rw [hc] at h
  refine ⟨_, h, ?_, ?_, hex_words_length c, ?_, ?_⟩
  · simp [nc_trace_ok, digested]
  · simp only [List.length_append, hex_words_length]
  · intro x hx
    rcases List.mem_append.1 hx with h1 | h1
    · rcases List.mem_append.1 h1 with h2 | h2
      · exact hm0 x h2
      · exact hp0 x h2
    · exact hex_words_ne_zero c x h1
  · simp only []
    rw [show hex_encode d ++ ascii "\n" ++ 0 :: List.drop 66 buf
      = (hex_encode d ++ ascii "\n") ++ 0 :: List.drop 66 buf from rfl]
    exact cstr_head _ _ (text_ne_zero d)

/-- C1 at the sample request. -/
theorem nc_serial_show_canonical_message_witness :
    sample_env.model = some (ascii "test,board") ∧ 65 < sample_page.length
      ∧ ∃ r, nc_serial_show sample_env sample_page = .ok r
        ∧ digested r.trace
          = [ascii "test,board" ++ sun5i_h6_info_quirks.platform_name ++ hex_words (List.range 16)]
        ∧ (ascii "test,board" ++ sun5i_h6_info_quirks.platform_name
            ++ hex_words (List.range 16)).length
          = (ascii "test,board").length + sun5i_h6_info_quirks.platform_name.length + 32
        ∧ (hex_words (List.range 16)).length = 32
        ∧ (∀ x ∈ ascii "test,board" ++ sun5i_h6_info_quirks.platform_name
            ++ hex_words (List.range 16), x ≠ 0)
        ∧ cstr r.buf 0 = .ok (hex_encode (sample_digest (ascii "test,board"
            ++ sun5i_h6_info_quirks.platform_name ++ hex_words (List.range 16))) ++ ascii "\n") :=
  ⟨rfl, by decide,
    nc_serial_show_canonical_message sample_env sample_page (ascii "test,board")
      sun5i_h6_info_quirks 0 (List.range 16) _ 0 rfl rfl (by decide) (by decide) rfl rfl
      (fun _ => rfl) rfl (by decide) (sample_digest_length _) (sample_digest_bytes _)
      (by decide)⟩

/-- C2, as stated, fails: for the chip ID bytes `00 01 .. 0f` the text `sunxi_chipid_show`
writes is `03020100070605040b0a09080f0e0d0c`, not `000102030405060708090a0b0c0d0e0f`, and with
model `test,board` on `sun50i-h6` the message handed to the digest ends in the former. -/
theorem chipid_text_not_in_buffer_order :
    (sample_env.sunxi_get_soc_chipid (List.replicate 16 0)).2
        = [0, 1, 2, 3, 4, 5, 6, 7, 8, 9, 10, 11, 12, 13, 14, 15]
      ∧ sunxi_chipid_show sample_env sample_page
        = .ok ⟨33, ascii "03020100070605040b0a09080f0e0d0c\n" ++ 0 :: sample_page.drop 34⟩
      ∧ sunxi_chipid_show sample_env sample_page
        ≠ .ok ⟨33, ascii "000102030405060708090a0b0c0d0e0f\n" ++ 0 :: sample_page.drop 34⟩
      ∧ hex_encode [0, 1, 2, 3, 4, 5, 6, 7, 8, 9, 10, 11, 12, 13, 14, 15]
        = ascii "000102030405060708090a0b0c0d0e0f"
      ∧ (nc_serial_show sample_env sample_page).map (fun r => digested r.trace)
        = .ok [ascii "test,boardsun50i-h603020100070605040b0a09080f0e0d0c"] := by
  decide

/-- C2, amended: the chip ID text of `sunxi_chipid_show`, `sys_info_show` and of the message
of `nc_serial_show` renders each byte as two lowercase hex digits, most significant nibble
first, without separators, in the order `b[3] b[2] b[1] b[0] b[7] .. b[4] b[11] .. b[8]
b[15] .. b[12]`: every 32-bit word of the buffer is printed most significant byte first. -/
theorem chipid_text_word_order (env : Env) (buf m : List Nat) (q : sunxi_info_quirks)
    (st : Int) (b d : List Nat) (rc : Int)
    (hacc : env.sunxi_get_soc_chipid (List.replicate 16 0) = (st, b))
    (hlen : b.length = 16) (hbytes : ∀ x ∈ b, x < 256)
    (hm : env.model = some m) (hq : env.quirks = some q)
    (hm0 : ∀ x ∈ m, x ≠ 0) (hp0 : ∀ x ∈ q.platform_name, x ≠ 0)
    (htfm : env.crypto_alloc_shash = none) (hk : ∀ r, env.kmalloc_fails r = false)
    (hdig : env.crypto_shash_digest (m ++ q.platform_name ++ hex_words b) = (rc, d))
    (hrc : 0 ≤ rc) (hd : d.length = 32) (hb : ∀ x ∈ d, x < 256)
    (hbuf : 127 + q.platform_name.length < buf.length) :
    swap_words b = [3, 2, 1, 0, 7, 6, 5, 4, 11, 10, 9, 8, 15, 14, 13, 12].map (fun i => b.getD i 0)
      ∧ sunxi_chipid_show env buf
        = .ok ⟨33, hex_encode (swap_words b) ++ ascii "\n" ++ 0 :: buf.drop 34⟩
      ∧ sys_info_show env buf
        = .ok ⟨127 + q.platform_name.length,
            ascii "sunxi_platform    : " ++ q.platform_name ++ ascii "\n"
            ++ (ascii "sunxi_chipid      : " ++ hex_encode (swap_words b) ++ ascii "\n")
            ++ (ascii "sunxi_serial      : " ++ hex_words (env.sunxi_get_serial b).2
              ++ ascii "\n")
            ++ 0 :: buf.drop (128 + q.platform_name.length)⟩
      ∧ (nc_serial_show env buf).map (fun r => digested r.trace)
        = .ok [m ++ q.platform_name ++ hex_encode (swap_words b)] := by
  have hc : (env.sunxi_get_soc_chipid (List.replicate 16 0)).2 = b := by rw [hacc]
  have hw := hex_words_eq b hlen hbytes
  refine ⟨?_, ?_, ?_, ?_⟩
  · match b, hlen with
    | [b0, b1, b2, b3, b4, b5, b6, b7, b8, b9, b10, b11, b12, b13, b14, b15], _ =>
      simp [swap_words]
  · have h := sunxi_chipid_show_spec env buf (by omega)
    rw [hc, hw] at h
    exact h
  · have h := sys_info_show_spec env q buf hq hbuf
    rw [hc, hw] at h
    exact h
  · have h := nc_serial_show_ok env buf m q d rc hm hq hm0 hp0 htfm hk (by rw [hc]; exact hdig)
      hrc hd hb (by omega)
    rw [hc, hw] at h
    rw [h]
    simp [Except.map, nc_trace_ok, digested]

/-- C2, amended, at the sample request. -/
theorem chipid_text_word_order_witness :
    (List.range 16).length = 16 ∧ 127 + sun5i_h6_info_quirks.platform_name.length
        < sample_page.length
      ∧ swap_words (List.range 16)
        = [3, 2, 1, 0, 7, 6, 5, 4, 11, 10, 9, 8, 15, 14, 13, 12].map
            (fun i => (List.range 16).getD i 0)
      ∧ sunxi_chipid_show sample_env sample_page
        = .ok ⟨33, hex_encode (swap_words (List.range 16)) ++ ascii "\n"
            ++ 0 :: sample_page.drop 34⟩
      ∧ sys_info_show sample_env sample_page
        = .ok ⟨127 + sun5i_h6_info_quirks.platform_name.length,
            ascii "sunxi_platform    : " ++ sun5i_h6_info_quirks.platform_name ++ ascii "\n"
            ++ (ascii "sunxi_chipid      : " ++ hex_encode (swap_words (List.range 16))
              ++ ascii "\n")
            ++ (ascii "sunxi_serial      : "
              ++ hex_words (sample_env.sunxi_get_serial (List.range 16)).2 ++ ascii "\n")
            ++ 0 :: sample_page.drop (128 + sun5i_h6_info_quirks.platform_name.length)⟩
      ∧ (nc_serial_show sample_env sample_page).map (fun r => digested r.trace)
        = .ok [ascii "test,board" ++ sun5i_h6_info_quirks.platform_name
            ++ hex_encode (swap_words (List.range 16))] :=
  ⟨by decide, by decide,
    chipid_text_word_order sample_env sample_page (ascii "test,board") sun5i_h6_info_quirks 0
      (List.range 16) _ 0 rfl (by decide) (by decide) rfl rfl (by decide) (by decide) rfl
      (fun _ => rfl) rfl (by decide) (sample_digest_length _) (sample_digest_bytes _)
      (by decide)⟩

/-- C3: for every 32-byte digest a successful digest call returns, `nc_serial_show` writes the
64 characters of the hex text of the digest, two digits per byte in order, high nibble first,
all from `0-9a-f`, then one newline, and returns 65; the terminator stored at index 64 of the
65-byte buffer cuts nothing off. -/
theorem nc_serial_show_full_hex_digest (env : Env) (buf m : List Nat) (q : sunxi_info_quirks)
    (st : Int) (c d : List Nat) (rc : Int)
    (hm : env.model = some m) (hq : env.quirks = some q)
    (hm0 : ∀ x ∈ m, x ≠ 0) (hp0 : ∀ x ∈ q.platform_name, x ≠ 0)
    (hacc : env.sunxi_get_soc_chipid (List.replicate 16 0) = (st, c))
    (htfm : env.crypto_alloc_shash = none) (hk : ∀ r, env.kmalloc_fails r = false)
    (hdig : env.crypto_shash_digest (m ++ q.platform_name ++ hex_words c) = (rc, d))
    (hrc : 0 ≤ rc) (hd : d.length = 32) (hb : ∀ x ∈ d, x < 256) (hbuf : 65 < buf.length) :
    (nc_serial_show env buf).map (fun r => (r.ret, r.buf))
        = .ok (65, hex_encode d ++ ascii "\n" ++ 0 :: buf.drop 66)
      ∧ (hex_encode d).length = 64
      ∧ (∀ ch ∈ hex_encode d, lower_hex ch = true)
      ∧ ascii "\n" = [10]
      ∧ (hex_encode d ++ ascii "\n").length = 65 := by
  have hc : (env.sunxi_get_soc_chipid (List.replicate 16 0)).2 = c := by rw [hacc]
  have h := nc_serial_show_ok env buf m q d rc hm hq hm0 hp0 htfm hk (by rw [hc]; exact hdig)
    hrc hd hb hbuf
  have hl : (hex_encode d).length = 64 := by rw [hex_encode_length, hd]
  refine ⟨?_, hl, hex_encode_lower d hb, by decide, ?_⟩
  · rw [h]
    rfl
  · rw [List.length_append, hl]
    decide

/-- C3 at the sample request. -/
theorem nc_serial_show_full_hex_digest_witness :
    sample_env.crypto_alloc_shash = none ∧ 65 < sample_page.length
      ∧ (nc_serial_show sample_env sample_page).map (fun r => (r.ret, r.buf))
          = .ok (65, hex_encode (sample_digest (ascii "test,board"
              ++ sun5i_h6_info_quirks.platform_name ++ hex_words (List.range 16)))
            ++ ascii "\n" ++ 0 :: sample_page.drop 66)
        ∧ (hex_encode (sample_digest (ascii "test,board"
              ++ sun5i_h6_info_quirks.platform_name ++ hex_words (List.range 16)))).length = 64
        ∧ (∀ ch ∈ hex_encode (sample_digest (ascii "test,board"
              ++ sun5i_h6_info_quirks.platform_name ++ hex_words (List.range 16))),
            lower_hex ch = true)
        ∧ ascii "\n" = [10]
        ∧ (hex_encode (sample_digest (ascii "test,board"
              ++ sun5i_h6_info_quirks.platform_name ++ hex_words (List.range 16)))
            ++ ascii "\n").length = 65 :=
  ⟨rfl, by decide,
    nc_serial_show_full_hex_digest sample_env sample_page (ascii "test,board")
      sun5i_h6_info_quirks 0 (List.range 16) _ 0 rfl rfl (by decide) (by decide) rfl rfl
      (fun _ => rfl) rfl (by decide) (sample_digest_length _) (sample_digest_bytes _)
      (by decide)⟩

/-- C4: for every bound platform name `n`, chip ID `c` and serial `s`, `sys_info_show` writes
the platform line, the chip ID line and the serial line in this order, each with its label,
the two hex texts having 32 hex characters each (nothing of the chip ID text is left in the
serial line), and returns the length of the text, `127 + len n`. -/
theorem sys_info_show_text (env : Env) (buf : List Nat) (q : sunxi_info_quirks)
    (st st' : Int) (c s : List Nat)
    (hq : env.quirks = some q)
    (hacc : env.sunxi_get_soc_chipid (List.replicate 16 0) = (st, c))
    (hser : env.sunxi_get_serial c = (st', s))
    (hbuf : 127 + q.platform_name.length < buf.length) :
    sys_info_show env buf
        = .ok ⟨127 + q.platform_name.length,
            ascii "sunxi_platform    : " ++ q.platform_name ++ ascii "\n"
            ++ (ascii "sunxi_chipid      : " ++ hex_words c ++ ascii "\n")
            ++ (ascii "sunxi_serial      : " ++ hex_words s ++ ascii "\n")
            ++ 0 :: buf.drop (128 + q.platform_name.length)⟩
      ∧ (hex_words c).length = 32 ∧ (∀ ch ∈ hex_words c, lower_hex ch = true)
      ∧ (hex_words s).length = 32 ∧ (∀ ch ∈ hex_words s, lower_hex ch = true)
      ∧ (ascii "sunxi_platform    : " ++ q.platform_name ++ ascii "\n"
          ++ (ascii "sunxi_chipid      : " ++ hex_words c ++ ascii "\n")
          ++ (ascii "sunxi_serial      : " ++ hex_words s ++ ascii "\n")).length
        = 127 + q.platform_name.length := by
  have hc : (env.sunxi_get_soc_chipid (List.replicate 16 0)).2 = c := by rw [hacc]
  have hs : (env.sunxi_get_serial c).2 = s := by rw [hser]
  have h := sys_info_show_spec env q buf hq hbuf
  rw [hc, hs] at h
  refine ⟨h, hex_words_length c, hex_words_lower c, hex_words_length s, hex_words_lower s, ?_⟩
  have a1 : (ascii "sunxi_platform    : ").length = 20 := by decide
  have a2 : (ascii "sunxi_chipid      : ").length = 20 := by decide
  have a3 : (ascii "sunxi_serial      : ").length = 20 := by decide
  have a4 : (ascii "\n").length = 1 := by decide
  simp only [List.length_append, hex_words_length, a1, a2, a3, a4]
  omega

/-- C4 at the sample request. -/
theorem sys_info_show_text_witness :
    sample_env.quirks = some sun5i_h6_info_quirks
      ∧ 127 + sun5i_h6_info_quirks.platform_name.length < sample_page.length
      ∧ sys_info_show sample_env sample_page
          = .ok ⟨127 + sun5i_h6_info_quirks.platform_name.length,
              ascii "sunxi_platform    : " ++ sun5i_h6_info_quirks.platform_name ++ ascii "\n"
              ++ (ascii "sunxi_chipid      : " ++ hex_words (List.range 16) ++ ascii "\n")
              ++ (ascii "sunxi_serial      : "
                ++ hex_words ((List.range 16).map (fun i => 255 - 16 * i)) ++ ascii "\n")
              ++ 0 :: sample_page.drop (128 + sun5i_h6_info_quirks.platform_name.length)⟩
        ∧ (hex_words (List.range 16)).length = 32
        ∧ (∀ ch ∈ hex_words (List.range 16), lower_hex ch = true)
        ∧ (hex_words ((List.range 16).map (fun i => 255 - 16 * i))).length = 32
        ∧ (∀ ch ∈ hex_words ((List.range 16).map (fun i => 255 - 16 * i)),
            lower_hex ch = true)
        ∧ (ascii "sunxi_platform    : " ++ sun5i_h6_info_quirks.platform_name ++ ascii "\n"
            ++ (ascii "sunxi_chipid      : " ++ hex_words (List.range 16) ++ ascii "\n")
            ++ (ascii "sunxi_serial      : "
              ++ hex_words ((List.range 16).map (fun i => 255 - 16 * i)) ++ ascii "\n")).length
          = 127 + sun5i_h6_info_quirks.platform_name.length :=
  ⟨rfl, by decide,
    sys_info_show_text sample_env sample_page sun5i_h6_info_quirks 0 0 (List.range 16)
      ((List.range 16).map (fun i => 255 - 16 * i)) rfl rfl rfl (by decide)⟩

/-- C5: for every 16-byte buffer `b`, also one whose words have the top bit set, the text of
the four `"%08x"` conversions has 32 characters, all from `0-9a-f`, and `hex_words_decode`
gives `b` back from it, so that different buffers have different texts; `sunxi_chipid_show`
and `sunxi_serial_show` write this text and a newline and return 33. -/
theorem hex_words_roundtrip_and_show (env env' : Env) (buf : List Nat) (st st' : Int)
    (b : List Nat) (hlen : b.length = 16) (hbytes : ∀ x ∈ b, x < 256)
    (hacc : env.sunxi_get_soc_chipid (List.replicate 16 0) = (st, b))
    (hser : env'.sunxi_get_serial (List.replicate 16 0) = (st', b))
    (hbuf : 33 < buf.length) :
    (hex_words b).length = 32
      ∧ (∀ ch ∈ hex_words b, lower_hex ch = true)
      ∧ hex_words_decode (hex_words b) = b
      ∧ (∀ b', b'.length = 16 → (∀ x ∈ b', x < 256) → hex_words b' = hex_words b → b' = b)
      ∧ sunxi_chipid_show env buf = .ok ⟨33, hex_words b ++ ascii "\n" ++ 0 :: buf.drop 34⟩
      ∧ sunxi_serial_show env' buf = .ok ⟨33, hex_words b ++ ascii "\n" ++ 0 :: buf.drop 34⟩
      ∧ (hex_words b ++ ascii "\n").length = 33 := by
  have hc : (env.sunxi_get_soc_chipid (List.replicate 16 0)).2 = b := by rw [hacc]
  have hs : (env'.sunxi_get_serial (List.replicate 16 0)).2 = b := by rw [hser]
  have h1 := sunxi_chipid_show_spec env buf hbuf
  have h2 := sunxi_serial_show_spec env' buf hbuf
  rw [hc] at h1
  rw [hs] at h2
  refine ⟨hex_words_length b, hex_words_lower b, hex_words_roundtrip b hlen hbytes, ?_, h1, h2,
    ?_⟩
  · intro b' hlen' hbytes' he
    have := congrArg hex_words_decode he
    rwa [hex_words_roundtrip b' hlen' hbytes', hex_words_roundtrip b hlen hbytes] at this
  · rw [List.length_append, hex_words_length]
    decide

/-- C5 at a buffer whose four words all have the top bit set. -/
theorem hex_words_roundtrip_and_show_witness :
    ((List.range 16).map (fun i => 255 - 16 * i)).length = 16
      ∧ load_int ((List.range 16).map (fun i => 255 - 16 * i)) 0 < 0
      ∧ 33 < sample_page.length
      ∧ (hex_words ((List.range 16).map (fun i => 255 - 16 * i))).length = 32
        ∧ (∀ ch ∈ hex_words ((List.range 16).map (fun i => 255 - 16 * i)),
            lower_hex ch = true)
        ∧ hex_words_decode (hex_words ((List.range 16).map (fun i => 255 - 16 * i)))
          = (List.range 16).map (fun i => 255 - 16 * i)
        ∧ (∀ b', b'.length = 16 → (∀ x ∈ b', x < 256)
            → hex_words b' = hex_words ((List.range 16).map (fun i => 255 - 16 * i))
            → b' = (List.range 16).map (fun i => 255 - 16 * i))
        ∧ sunxi_chipid_show
            { sample_env with sunxi_get_soc_chipid := sample_env.sunxi_get_serial } sample_page
          = .ok ⟨33, hex_words ((List.range 16).map (fun i => 255 - 16 * i)) ++ ascii "\n"
              ++ 0 :: sample_page.drop 34⟩
        ∧ sunxi_serial_show sample_env sample_page
          = .ok ⟨33, hex_words ((List.range 16).map (fun i => 255 - 16 * i)) ++ ascii "\n"
              ++ 0 :: sample_page.drop 34⟩
        ∧ (hex_words ((List.range 16).map (fun i => 255 - 16 * i)) ++ ascii "\n").length = 33 :=
  ⟨by decide, by decide, by decide,
    hex_words_roundtrip_and_show
      { sample_env with sunxi_get_soc_chipid := sample_env.sunxi_get_serial } sample_env
      sample_page 0 0 ((List.range 16).map (fun i => 255 - 16 * i)) (by decide) (by decide)
      rfl rfl (by decide)⟩

/-- C6: if the messages two requests hand to the digest are equal, where the platform names
come from `sunxi_info_match[]` and the chip IDs have 16 bytes, then the models, the platform
names and the chip IDs are equal; changing one of the three, such as one chip ID byte,
changes the digested bytes. -/
theorem nc_serial_show_message_inj (env env' : Env) (buf buf' m m' : List Nat)
    (q q' : sunxi_info_quirks) (st st' : Int) (c c' : List Nat) (r r' : Fingerprinted)
    (msg : List Nat)
    (hm : env.model = some m) (hm' : env'.model = some m')
    (hm0 : ∀ x ∈ m, x ≠ 0) (hm0' : ∀ x ∈ m', x ≠ 0)
    (hq : env.quirks = some q) (hq' : env'.quirks = some q')
    (hp : q.platform_name ∈ registry_names) (hp' : q'.platform_name ∈ registry_names)
    (hacc : env.sunxi_get_soc_chipid (List.replicate 16 0) = (st, c))
    (hacc' : env'.sunxi_get_soc_chipid (List.replicate 16 0) = (st', c'))
    (hc : c.length = 16) (hcb : ∀ x ∈ c, x < 256)
    (hc' : c'.length = 16) (hcb' : ∀ x ∈ c', x < 256)
    (hr : nc_serial_show env buf = .ok r) (hr' : nc_serial_show env' buf' = .ok r')
    (hmsg : msg ∈ digested r.trace) (hmsg' : msg ∈ digested r'.trace) :
    msg = m ++ q.platform_name ++ hex_words c
      ∧ m = m' ∧ q.platform_name = q'.platform_name ∧ c = c' := by
  have e : (env.sunxi_get_soc_chipid (List.replicate 16 0)).2 = c := by rw [hacc]
  have e' : (env'.sunxi_get_soc_chipid (List.replicate 16 0)).2 = c' := by rw [hacc']
  have h1 := nc_serial_show_digested env buf m q r hm hq hm0
    (registry_names_ne_zero _ hp) hr msg hmsg
  have h2 := nc_serial_show_digested env' buf' m' q' r' hm' hq' hm0'
    (registry_names_ne_zero _ hp') hr' msg hmsg'
  rw [e] at h1
  rw [e'] at h2
  exact ⟨h1, canonical_message_inj m m' q.platform_name q'.platform_name c c' hp hp' hc hcb hc'
    hcb' (h1.symm.trans h2)⟩

/-- C6 at two runs of the sample request that differ in what the heap held. -/
theorem nc_serial_show_message_inj_witness :
    sample_env.model = some (ascii "test,board")
      ∧ sun5i_h6_info_quirks.platform_name ∈ registry_names
      ∧ nc_serial_show sample_env sample_page
        = .ok ⟨65, hex_encode (sample_digest
              (ascii "test,boardsun50i-h603020100070605040b0a09080f0e0d0c"))
            ++ ascii "\n" ++ 0 :: sample_page.drop 66,
            nc_trace_ok (ascii "test,boardsun50i-h603020100070605040b0a09080f0e0d0c")⟩
      ∧ ascii "test,boardsun50i-h603020100070605040b0a09080f0e0d0c"
          = ascii "test,board" ++ sun5i_h6_info_quirks.platform_name ++ hex_words (List.range 16)
        ∧ ascii "test,board" = ascii "test,board"
        ∧ sun5i_h6_info_quirks.platform_name = sun5i_h6_info_quirks.platform_name
        ∧ List.range 16 = List.range 16 :=
  ⟨rfl, by decide, by decide,
    nc_serial_show_message_inj sample_env { sample_env with heap_garbage := fun _ _ => 0 }
      sample_page (List.replicate 70 0) (ascii "test,board") (ascii "test,board")
      sun5i_h6_info_quirks sun5i_h6_info_quirks 0 0 (List.range 16) (List.range 16)
      ⟨65, hex_encode (sample_digest
            (ascii "test,boardsun50i-h603020100070605040b0a09080f0e0d0c"))
          ++ ascii "\n" ++ 0 :: sample_page.drop 66,
        nc_trace_ok (ascii "test,boardsun50i-h603020100070605040b0a09080f0e0d0c")⟩
      ⟨65, hex_encode (sample_digest
            (ascii "test,boardsun50i-h603020100070605040b0a09080f0e0d0c"))
          ++ ascii "\n" ++ 0 :: (List.replicate 70 0).drop 66,
        nc_trace_ok (ascii "test,boardsun50i-h603020100070605040b0a09080f0e0d0c")⟩
      (ascii "test,boardsun50i-h603020100070605040b0a09080f0e0d0c")
      rfl rfl (by decide) (by decide) rfl rfl (by decide) (by decide) rfl rfl
      (by decide) (by decide) (by decide) (by decide) (by decide) (by decide)
      (by decide) (by decide)⟩

/-- C7, as stated, fails: with a chip ID accessor that reports `-EIO` and leaves the zero
initialised buffer untouched, `nc_serial_show` returns 65 and writes the hex text of the
digest of `test,board`, `sun50i-h6` and 32 characters `0`. -/
theorem nc_serial_show_after_failed_chipid_read :
    (failing_chipid_env.sunxi_get_soc_chipid (List.replicate 16 0)).1 = -5
      ∧ nc_serial_show failing_chipid_env sample_page
        = .ok ⟨65, hex_encode (sample_digest
              (ascii "test,boardsun50i-h600000000000000000000000000000000"))
            ++ ascii "\n" ++ 0 :: sample_page.drop 66,
            nc_trace_ok (ascii "test,boardsun50i-h600000000000000000000000000000000")⟩ := by
  decide

/-- C7, amended: `nc_serial_show` does not look at the status `sunxi_get_soc_chipid` returns.
Whatever the status, it renders the 16 bytes the buffer holds after the call, which is 32
characters `0` when the accessor left the zero initialised buffer untouched, hands model,
platform name and this text to the digest and, when the other steps succeed, writes the
fingerprint and returns 65. -/
theorem nc_serial_show_ignores_chipid_status (env : Env) (buf m : List Nat)
    (q : sunxi_info_quirks) (st : Int) (c d : List Nat) (rc : Int)
    (hm : env.model = some m) (hq : env.quirks = some q)
    (hm0 : ∀ x ∈ m, x ≠ 0) (hp0 : ∀ x ∈ q.platform_name, x ≠ 0)
    (hacc : env.sunxi_get_soc_chipid (List.replicate 16 0) = (st, c))
    (htfm : env.crypto_alloc_shash = none) (hk : ∀ r, env.kmalloc_fails r = false)
    (hdig : env.crypto_shash_digest (m ++ q.platform_name ++ hex_words c) = (rc, d))
    (hrc : 0 ≤ rc) (hd : d.length = 32) (hb : ∀ x ∈ d, x < 256) (hbuf : 65 < buf.length) :
    nc_serial_show env buf
        = .ok ⟨65, hex_encode d ++ ascii "\n" ++ 0 :: buf.drop 66,
            nc_trace_ok (m ++ q.platform_name ++ hex_words c)⟩
      ∧ (c = List.replicate 16 0 → hex_words c = List.replicate 32 48) := by
  have hc : (env.sunxi_get_soc_chipid (List.replicate 16 0)).2 = c := by rw [hacc]
  have h := nc_serial_show_ok env buf m q d rc hm hq hm0 hp0 htfm hk (by rw [hc]; exact hdig)
    hrc hd hb hbuf
  rw [hc] at h
  refine ⟨h, ?_⟩
  intro h0
  rw [h0]
  decide

/-- C7, amended, at the sample request with the failing chip ID accessor. -/
theorem nc_serial_show_ignores_chipid_status_witness :
    failing_chipid_env.sunxi_get_soc_chipid (List.replicate 16 0) = (-5, List.replicate 16 0)
      ∧ 65 < sample_page.length
      ∧ nc_serial_show failing_chipid_env sample_page
          = .ok ⟨65, hex_encode (sample_digest (ascii "test,board"
                ++ sun5i_h6_info_quirks.platform_name ++ hex_words (List.replicate 16 0)))
              ++ ascii "\n" ++ 0 :: sample_page.drop 66,
              nc_trace_ok (ascii "test,board" ++ sun5i_h6_info_quirks.platform_name
                ++ hex_words (List.replicate 16 0))⟩
        ∧ (List.replicate 16 0 = List.replicate 16 0
          → hex_words (List.replicate 16 0) = List.replicate 32 48) :=
  ⟨rfl, by decide,
    nc_serial_show_ignores_chipid_status failing_chipid_env sample_page (ascii "test,board")
      sun5i_h6_info_quirks (-5) (List.replicate 16 0) _ 0 rfl rfl (by decide) (by decide) rfl
      rfl (fun _ => rfl) rfl (by decide) (sample_digest_length _) (sample_digest_bytes _)
      (by decide)⟩

/-- C8, evaluated where the code departs from it: when the digest call returns `-EINVAL`, and
when the `kmalloc` of `outbuf` fails, `nc_serial_show` returns 0 with the caller's buffer
untouched, not the error code it has put in `ret`; when `crypto_alloc_shash` fails it frees
the never assigned `desc` on its way out. -/
theorem nc_serial_show_failure_returns_zero :
    (digest_fails_env.crypto_shash_digest
          (ascii "test,boardsun50i-h603020100070605040b0a09080f0e0d0c")).1 = -22
      ∧ (nc_serial_show digest_fails_env sample_page).map (fun r => (r.ret, r.buf))
        = .ok (0, sample_page)
      ∧ outbuf_fails_env.kmalloc_fails Res.outbuf = true
      ∧ (nc_serial_show outbuf_fails_env sample_page).map (fun r => (r.ret, r.buf))
        = .ok (0, sample_page)
      ∧ tfm_fails_env.crypto_alloc_shash = some (-2)
      ∧ nc_serial_show tfm_fails_env sample_page = .error Fault.uninit_free := by
  decide

/-- C9: from a state with nothing registered, `sunxi_info_probe` returns `-ENODEV` and
registers nothing when `of_device_get_match_data` yields NULL; whenever it returns a non-zero
value no class, attribute file or misc device is registered; and when it returns zero the
profile is bound, and the class, the four attribute files and the misc device are registered. -/
theorem sunxi_info_probe_all_or_nothing (env : ProbeEnv) (st : DrvState)
    (hst : st.class_registered = false ∧ st.attrs = [] ∧ st.misc_registered = false) :
    (env.of_device_get_match_data = none →
        (sunxi_info_probe env st).1 = -ENODEV
          ∧ (sunxi_info_probe env st).2.class_registered = false
          ∧ (sunxi_info_probe env st).2.attrs = []
          ∧ (sunxi_info_probe env st).2.misc_registered = false)
      ∧ ((sunxi_info_probe env st).1 ≠ 0 →
        (sunxi_info_probe env st).2.class_registered = false
          ∧ (sunxi_info_probe env st).2.attrs = []
          ∧ (sunxi_info_probe env st).2.misc_registered = false)
      ∧ ((sunxi_info_probe env st).1 = 0 →
        (sunxi_info_probe env st).2.quirks ≠ none
          ∧ (sunxi_info_probe env st).2.quirks = env.of_device_get_match_data
          ∧ (sunxi_info_probe env st).2.class_registered = true
          ∧ (sunxi_info_probe env st).2.attrs = [0, 1, 2, 3]
          ∧ (sunxi_info_probe env st).2.misc_registered = true) := by
  obtain ⟨sq, sc, sa, sm⟩ := st
  obtain ⟨hs1, hs2, hs3⟩ := hst
  simp only at hs1 hs2 hs3
  subst hs1 hs2 hs3
  have hr : List.range info_class_attrs.length = [0, 1, 2, 3] := by decide
  cases hmd : env.of_device_get_match_data with
  | none =>
    simp [sunxi_info_probe, hmd, ENODEV]
  | some q =>
    by_cases h1 : env.class_register = 0
    · obtain ⟨c1, c2, c3, c4⟩ := create_files_spec env [0, 1, 2, 3]
        { quirks := some q, class_registered := true, attrs := [], misc_registered := false }
      simp only [List.nil_append] at c1 c2 c3 c4
      generalize hcf : create_files env [0, 1, 2, 3]
        { quirks := some q, class_registered := true, attrs := [], misc_registered := false }
        = r at c1 c2 c3 c4
      obtain ⟨ret, s2⟩ := r
      obtain ⟨q2, cl2, at2, mi2⟩ := s2
      simp only at c1 c2 c3 c4
      subst c1 c2 c3
      by_cases h2 : ret = 0
      · have c5 := c4 h2
        subst c5
        subst h2
        by_cases h3 : env.misc_register = 0
        · simp [sunxi_info_probe, hmd, h1, hr, hcf, h3]
        · simp [sunxi_info_probe, hmd, h1, hr, hcf, h3, class_unregister]
      · simp [sunxi_info_probe, hmd, h1, hr, hcf, h2, class_unregister]
    · simp [sunxi_info_probe, hmd, h1]

/-- C9 at a probe in which every call succeeds and at one without a matching entry. -/
theorem sunxi_info_probe_all_or_nothing_witness :
    (DrvState.unbound.class_registered = false ∧ DrvState.unbound.attrs = []
        ∧ DrvState.unbound.misc_registered = false)
      ∧ (sunxi_info_probe sample_probe_env DrvState.unbound).1 = 0
      ∧ (sunxi_info_probe sample_probe_env DrvState.unbound).2.attrs = [0, 1, 2, 3]
      ∧ (sunxi_info_probe { sample_probe_env with of_device_get_match_data := none }
          DrvState.unbound).1 = -ENODEV :=
  ⟨by decide,
    by decide,
    ((sunxi_info_probe_all_or_nothing sample_probe_env DrvState.unbound (by decide)).2.2
      (by decide)).2.2.2.1,
    ((sunxi_info_probe_all_or_nothing { sample_probe_env with of_device_get_match_data := none }
      DrvState.unbound (by decide)).1 rfl).1⟩

/-- C10, evaluated where the code departs from it: after a request in which every step
succeeds `sha256buf` and `outbuf` are still live, as they are after a failed digest call;
after a failed `kmalloc` of `outbuf`, `sha256buf` is still live; and when
`crypto_alloc_shash` fails the code frees `desc`, which it never assigned. -/
theorem nc_serial_show_leaks_digest_buffers :
    (nc_serial_show sample_env sample_page).map (fun r => live_after [] r.trace)
        = .ok [Res.sha256buf, Res.outbuf]
      ∧ (nc_serial_show digest_fails_env sample_page).map (fun r => live_after [] r.trace)
        = .ok [Res.sha256buf, Res.outbuf]
      ∧ (nc_serial_show outbuf_fails_env sample_page).map (fun r => live_after [] r.trace)
        = .ok [Res.sha256buf]
      ∧ (nc_serial_show sample_env sample_page).map (fun r => r.trace)
        = .ok [Ev.acquire .unhashedbuf, Ev.acquire .tfm, Ev.acquire .desc,
            Ev.acquire .sha256buf, Ev.acquire .outbuf,
            Ev.digest (ascii "test,boardsun50i-h603020100070605040b0a09080f0e0d0c"),
            Ev.release .unhashedbuf, Ev.release .desc, Ev.release .tfm]
      ∧ nc_serial_show tfm_fails_env sample_page = .error Fault.uninit_free := by
  decide

end SunxiSysinfo
